import Mathlib

/-!
Verification of the layer module `torch_explain/nn/logic.py`.

Tensors are embedded as nested lists of rationals (floating-point values are
modelled as exact rationals).  Ranks 0 to 4 cover every tensor the module
builds.  The transcendental primitives of the tensor library (`exp` used by
softmax, `sqrt` used by the 2-norm) are passed in as function parameters;
theorems that need a property of them (e.g. positivity of `exp`) state it as a
hypothesis.  Fallible tensor operations (matrix multiply, broadcasting) return
`Option`, and the layer forward passes return `Except Err _` mirroring the
exceptions PyTorch raises.  Only the rank combinations actually exercised by
the source module are modelled for `matmul`; unexercised combinations are
mapped to a shape error.
-/

namespace TorchExplain

/-- Rank-1 tensor: a vector of rationals. -/
abbrev T1 := List ℚ

/-- Rank-2 tensor: a matrix as a list of rows. -/
abbrev T2 := List T1

/-- Rank-3 tensor. -/
abbrev T3 := List T2

/-- Rank-4 tensor. -/
abbrev T4 := List T3

/-- A dynamically ranked tensor (ranks 0..4), the data currency between layers. -/
inductive TD where
  | t0 (x : ℚ)
  | t1 (x : T1)
  | t2 (x : T2)
  | t3 (x : T3)
  | t4 (x : T4)
  deriving DecidableEq

/-- Errors a forward pass can raise: a shape mismatch in a tensor operation, a
call with a missing required argument, or an arithmetic operation on `None`. -/
inductive Err where
  | shapeMismatch
  | missingArgument
  | unsupportedOperand
  deriving DecidableEq

/-- `optMap g l` applies the fallible `g` to every element, failing if any
application fails (explicit version of `mapM` over `Option`). -/
def optMap (g : α → Option β) : List α → Option (List β)
  | [] => some []
  | a :: as =>
    match g a, optMap g as with
    | some b, some bs => some (b :: bs)
    | _, _ => none

/-- Broadcasting zip: combine two lists with a fallible elementwise operation,
broadcasting a length-1 side across the other (PyTorch dimension broadcasting). -/
def bcZip (op : α → β → Option γ) (xs : List α) (ys : List β) : Option (List γ) :=
  if xs.length = ys.length then optMap (fun p => op p.1 p.2) (xs.zip ys)
  else if xs.length = 1 then
    match xs with
    | [x] => optMap (op x) ys
    | _ => none
  else if ys.length = 1 then
    match ys with
    | [y] => optMap (op · y) xs
    | _ => none
  else none

/-- Elementwise broadcasting on rank-1 tensors. -/
def bop1 (f : ℚ → ℚ → ℚ) : T1 → T1 → Option T1 :=
  bcZip (fun a b => some (f a b))

/-- Elementwise broadcasting on rank-2 tensors. -/
def bop2 (f : ℚ → ℚ → ℚ) : T2 → T2 → Option T2 :=
  bcZip (bop1 f)

/-- Elementwise broadcasting on rank-3 tensors. -/
def bop3 (f : ℚ → ℚ → ℚ) : T3 → T3 → Option T3 :=
  bcZip (bop2 f)

/-- Elementwise broadcasting on rank-4 tensors. -/
def bop4 (f : ℚ → ℚ → ℚ) : T4 → T4 → Option T4 :=
  bcZip (bop3 f)

/-- Uniform row width of a matrix (length of its first row). -/
def width (m : T2) : Nat := (m.headD []).length

/-- Dot product of two equal-length vectors. -/
def dot (v w : T1) : ℚ := ((v.zip w).map fun p => p.1 * p.2).sum

/-- 2-D transpose (`Tensor.t()` for matrices). -/
def tr2 (m : T2) : T2 :=
  (List.range (width m)).map fun j => m.map fun r => r.getD j 0

/-- 2-D matrix multiplication with explicit dimension checks
(inner dimensions must agree, the right factor must be rectangular). -/
def mm2 (A B : T2) : Option T2 :=
  if (A.all fun r => r.length = B.length) ∧ (B.all fun r => r.length = width B) then
    some (A.map fun r => (tr2 B).map fun c => dot r c)
  else none

/-- Batched matrix multiply on rank-3 tensors (leading dimension broadcasts). -/
def matmul33 (x y : T3) : Option T3 := bcZip mm2 x y

/-- Batched matrix multiply on rank-4 tensors (two leading dimensions broadcast). -/
def matmul44 (x y : T4) : Option T4 := bcZip matmul33 x y

/-- `x.matmul(w)` for a rank-2 right factor `w`, broadcast over the leading
dimensions of `x` (the combinations PyTorch's `matmul`/`linear` uses here). -/
def matmulR2 (x : TD) (w : T2) : Option TD :=
  match x with
  | .t2 m => (mm2 m w).map .t2
  | .t3 t => (optMap (fun m => mm2 m w) t).map .t3
  | .t4 t => (optMap (fun u => optMap (fun m => mm2 m w) u) t).map .t4
  | _ => none

/-- Add a rank-1 bias to a tensor, broadcasting over leading dimensions
(the `+ bias` of `F.linear`). -/
def addBias1 (x : TD) (b : T1) : Option TD :=
  match x with
  | .t1 v => (bop1 (· + ·) v b).map .t1
  | .t2 m => (optMap (fun r => bop1 (· + ·) r b) m).map .t2
  | .t3 t => (optMap (fun m => optMap (fun r => bop1 (· + ·) r b) m) t).map .t3
  | .t4 t => (optMap (fun u => optMap (fun m => optMap (fun r => bop1 (· + ·) r b) m) u) t).map .t4
  | _ => none

/-- Apply a scalar function to every entry of a dynamically ranked tensor. -/
def mapTD (g : ℚ → ℚ) : TD → TD
  | .t0 a => .t0 (g a)
  | .t1 v => .t1 (v.map g)
  | .t2 m => .t2 (m.map fun r => r.map g)
  | .t3 t => .t3 (t.map fun m => m.map fun r => r.map g)
  | .t4 t => .t4 (t.map fun u => u.map fun m => m.map fun r => r.map g)

/-- Softmax over a vector: `exp` of every entry divided by the sum of the `exp`s
(the mathematical content of `torch.softmax` along one axis). -/
def softmaxWith (exp : ℚ → ℚ) (v : T1) : T1 :=
  v.map fun x => exp x / (v.map exp).sum

/-- `torch.softmax(·, dim=1)` on a rank-2 tensor (the last axis). -/
def softmaxDim1 (exp : ℚ → ℚ) (m : T2) : T2 := m.map (softmaxWith exp)

/-- `torch.softmax(·, dim=-1)` on a rank-3 tensor. -/
def softmaxLast3 (exp : ℚ → ℚ) (t : T3) : T3 := t.map fun m => m.map (softmaxWith exp)

/-- Maximum entry of a vector (`0` for the empty vector, which PyTorch rejects). -/
def maxList : T1 → ℚ
  | [] => 0
  | x :: xs => xs.foldl max x

/-- `Tensor.max(dim=1)[0]` on a rank-2 tensor: per-row maximum. -/
def maxLast2 (m : T2) : T1 := m.map maxList

/-- `Tensor.max(dim=2)[0]` on a rank-3 tensor: maximum over the last axis. -/
def maxLast3 (t : T3) : T2 := t.map fun m => m.map maxList

/-- Same-shape elementwise addition of vectors. -/
def add1 (v w : T1) : T1 := List.zipWith (· + ·) v w

/-- Same-shape elementwise addition of matrices. -/
def add2 (x y : T2) : T2 := List.zipWith add1 x y

/-- Multiply every entry of a matrix by a scalar. -/
def scale2 (c : ℚ) (m : T2) : T2 := m.map fun r => r.map (c * ·)

/-- `Tensor.norm(dim=1)` on a rank-3 tensor: for each class, the 2-norm over the
rows (dimension 1), leaving a per-class, per-column vector of norms. -/
def normDim1 (sqrt : ℚ → ℚ) (t : T3) : T2 :=
  t.map fun cls =>
    match cls with
    | [] => []
    | h :: rest =>
      (((rest.map fun r => r.map fun x => x * x).foldl add1
        (h.map fun x => x * x)).map sqrt)

/-- `Tensor.mean(dim=1)` on a rank-4 tensor. -/
def mean1of4 (t : T4) : T3 :=
  t.map fun cls =>
    match cls with
    | [] => []
    | h :: rest => scale2 (1 / ((rest.length + 1 : Nat) : ℚ)) (rest.foldl add2 h)

/-- `Tensor.permute(0, 2, 1)` on a rank-3 tensor. -/
def permute021 (t : T3) : T3 := t.map tr2

/-- `Tensor.unsqueeze(1)` on a rank-1 tensor: `(n) → (n, 1)`. -/
def unsq1of1 (v : T1) : T2 := v.map fun q => [q]

/-- `Tensor.unsqueeze(1)` on a rank-2 tensor: `(a, b) → (a, 1, b)`. -/
def unsq1of2 (m : T2) : T3 := m.map fun r => [r]

/-- `Tensor.unsqueeze(-1)` on a rank-2 tensor: `(a, b) → (a, b, 1)`. -/
def unsqLast2 (m : T2) : T3 := m.map fun r => r.map fun q => [q]

/-- `Tensor.unsqueeze(-1)` on a rank-3 tensor: `(a, b, c) → (a, b, c, 1)`. -/
def unsqLast3 (t : T3) : T4 := t.map fun m => m.map fun r => r.map fun q => [q]

/-- `Tensor.unsqueeze(-2)` on a rank-3 tensor: `(a, b, c) → (a, b, 1, c)`. -/
def unsqPenult3 (t : T3) : T4 := t.map fun m => m.map fun r => [r]

/-- `Tensor.unsqueeze(0)` on a dynamically ranked tensor. -/
def unsqueeze0TD : TD → TD
  | .t0 a => .t1 [a]
  | .t1 v => .t2 [v]
  | .t2 m => .t3 [m]
  | .t3 t => .t4 [t]
  | .t4 t => .t4 t

/-- Flatten a rank-2 tensor to its row-major entry list. -/
def flatten2 (m : T2) : T1 := m.flatten

/-- Flatten a rank-3 tensor to its row-major entry list. -/
def flatten3 (t : T3) : T1 := (t.map flatten2).flatten

/-- Flatten a rank-4 tensor to its row-major entry list. -/
def flatten4 (t : T4) : T1 := (t.map flatten3).flatten

/-- `Tensor.view(r, -1)`: reinterpret a flat buffer as `r` equal rows
(fails unless `r` divides the number of entries, as in PyTorch). -/
def viewT (flat : T1) (r : Nat) : Option T2 :=
  if r ≠ 0 ∧ flat.length % r = 0 then
    some ((List.range r).map fun i => (flat.drop (i * (flat.length / r))).take (flat.length / r))
  else none

/-- Shape of a rank-4 tensor read off its first slices (exact on rectangular tensors). -/
def shape4 (t : T4) : List Nat :=
  [t.length, (t.headD []).length, ((t.headD []).headD []).length,
   (((t.headD []).headD []).headD []).length]

/-- Rebuild a tensor of the given shape (rank at most 4) from a flat buffer. -/
def rebuild (sh : List Nat) (flat : T1) : Option TD :=
  match sh with
  | [] => (flat.head?).map .t0
  | [n] => if flat.length = n then some (.t1 flat) else none
  | [a, b] => if flat.length = a * b then (viewT flat a).map .t2 else none
  | [a, b, c] =>
    if flat.length = a * (b * c) then
      (viewT flat a).bind fun rows => (optMap (fun r => viewT r b) rows).map .t3
    else none
  | [a, b, c, d] =>
    if flat.length = a * (b * (c * d)) then
      (viewT flat a).bind fun rows =>
        (optMap (fun r => (viewT r b).bind fun ss =>
          optMap (fun s => viewT s c) ss) rows).map .t4
    else none
  | _ => none

/-- `Tensor.squeeze()` on a rank-4 tensor: drop every size-1 dimension. -/
def squeezeAll4 (t : T4) : Option TD :=
  rebuild ((shape4 t).filter (fun n => n ≠ 1)) (flatten4 t)

/-- `Tensor.squeeze(-1)` on a rank-4 tensor: drop the last dimension if it has size 1. -/
def squeezeLast4 (t : T4) : Option TD :=
  match shape4 t with
  | [a, b, c, d] =>
    if d = 1 then rebuild [a, b, c] (flatten4 t) else some (.t4 t)
  | _ => none

/-- Add a rank-3 tensor (e.g. a `(n_classes, 1, out)` bias) to a dynamically
ranked tensor, right-aligned broadcasting. -/
def addT3 (x : TD) (b : T3) : Option TD :=
  match x with
  | .t0 a => (bop3 (· + ·) [[[a]]] b).map .t3
  | .t1 v => (bop3 (· + ·) [[v]] b).map .t3
  | .t2 m => (bop3 (· + ·) [m] b).map .t3
  | .t3 t => (bop3 (· + ·) t b).map .t3
  | .t4 t => (optMap (fun u => bop3 (· + ·) u b) t).map .t4

/-- Rank-1 tensor with entries given by an index function. -/
def tof1 (n : Nat) (f : Nat → ℚ) : T1 := (List.range n).map f

/-- Rank-2 tensor with entries given by an index function. -/
def tof2 (a b : Nat) (f : Nat → Nat → ℚ) : T2 := (List.range a).map fun i => tof1 b (f i)

/-- Rank-3 tensor with entries given by an index function. -/
def tof3 (a b c : Nat) (f : Nat → Nat → Nat → ℚ) : T3 :=
  (List.range a).map fun i => tof2 b c (f i)

/-- Rank-4 tensor with entries given by an index function. -/
def tof4 (a b c d : Nat) (f : Nat → Nat → Nat → Nat → ℚ) : T4 :=
  (List.range a).map fun i => tof3 b c d (f i)

/-- Decidable shape predicate for rank-1 tensors. -/
def sh1 (v : T1) (n : Nat) : Bool := v.length == n

/-- Decidable shape predicate for rank-2 tensors. -/
def sh2 (m : T2) (a b : Nat) : Bool := m.length == a && m.all fun r => sh1 r b

/-- Decidable shape predicate for rank-3 tensors. -/
def sh3 (t : T3) (a b c : Nat) : Bool := t.length == a && t.all fun m => sh2 m b c

/-- Decidable shape predicate for rank-4 tensors. -/
def sh4 (t : T4) (a b c d : Nat) : Bool := t.length == a && t.all fun m => sh3 m b c d

end TorchExplain

namespace TorchExplain

/-- Modelled from the spec: `Conceptizator` (from the sibling `concepts` module,
not under `src/`) is a stateful activation wrapper holding a mode string and the
most recent input it consumed (`concepts`, last-write-wins). -/
structure Conceptizator where
  mode : String
  concepts : Option TD
  deriving DecidableEq

/-- Modelled from the spec: invoking a Conceptizator stores the raw input as
`concepts`, then returns the input transformed elementwise by the nonlinearity
its mode selects; the nonlinearity itself (not in `src/`) is abstracted as the
function parameter `act`. -/
def Conceptizator.forward (act : ℚ → ℚ) (c : Conceptizator) (x : TD) :
    Conceptizator × TD :=
  ({ c with concepts := some x }, mapTD act x)

/-- The `ConceptAwareness` layer: per-class weight `(n_classes, out, in)`,
per-class bias `(n_classes, 1, out)` (absent when constructed with
`bias=False`), a Conceptizator recording snapshot, and the shrink-gating state
`gamma`/`alpha`/`beta`. -/
structure ConceptAwareness where
  in_features : Nat
  out_features : Nat
  n_classes : Nat
  awareness : Bool
  n_heads : Option Nat
  top : Bool
  shrink : Bool
  weight : T3
  bias : Option T3
  conceptizator : Conceptizator
  gamma : Option T2
  alpha : Option T2
  beta : Option T2
  deriving DecidableEq

/-- `ConceptAwareness.__init__`: the random parameter tensors filled in by
`reset_parameters` are supplied as entry functions `wv` (weight) and `bv`
(bias); `shrink` is set exactly when `n_heads` is not `None`. -/
def mkConceptAwareness (inF outF nClasses : Nat) (awareness : Bool)
    (nHeads : Option Nat) (top : Bool) (biasFlag : Bool)
    (wv : Nat → Nat → Nat → ℚ) (bv : Nat → Nat → Nat → ℚ) : ConceptAwareness :=
  { in_features := inF
    out_features := outF
    n_classes := nClasses
    awareness := awareness
    n_heads := nHeads
    top := top
    shrink := nHeads.isSome
    weight := tof3 nClasses outF inF wv
    bias := if biasFlag then some (tof3 nClasses 1 outF bv) else none
    conceptizator := { mode := "identity_bool", concepts := none }
    gamma := none
    alpha := none
    beta := none }

/-- Line 55: `self.gamma = self.weight.norm(dim=1)`. -/
def ConceptAwareness.gammaOf (sqrt : ℚ → ℚ) (l : ConceptAwareness) : T2 :=
  normDim1 sqrt l.weight

/-- Line 56: `self.alpha = torch.softmax(self.gamma, dim=1)`. -/
def ConceptAwareness.alphaOf (exp sqrt : ℚ → ℚ) (l : ConceptAwareness) : T2 :=
  softmaxDim1 exp (l.gammaOf sqrt)

/-- Line 57: `self.beta = self.alpha / self.alpha.max(dim=1)[0].unsqueeze(1)`. -/
def ConceptAwareness.betaOf (exp sqrt : ℚ → ℚ) (l : ConceptAwareness) : Option T2 :=
  bop2 (· / ·) (l.alphaOf exp sqrt) (unsq1of1 (maxLast2 (l.alphaOf exp sqrt)))

/-- Lines 50-51: a 2-D input gains a leading class-broadcast dimension. -/
def promoteTD : TD → TD
  | .t2 m => .t3 [m]
  | x => x

/-- Lines 59/61: `x.matmul(self.weight.permute(0, 2, 1)) + self.bias`.  The
matrix multiply is evaluated first; if the layer has no bias, the subsequent
`+ None` raises (`unsupportedOperand`). -/
def ConceptAwareness.project (l : ConceptAwareness) (xg : T3) : Except Err T3 :=
  match matmul33 xg (permute021 l.weight) with
  | none => .error .shapeMismatch
  | some mm =>
    match l.bias with
    | none => .error .unsupportedOperand
    | some b =>
      match bop3 (· + ·) mm b with
      | none => .error .shapeMismatch
      | some o => .ok o

/-- Lines 62-64: when `top` is set, `x = x.view(self.n_classes, -1).t()` and the
reshaped tensor is re-recorded as the Conceptizator `concepts` snapshot. -/
def ConceptAwareness.finishTop (l : ConceptAwareness) (o : T3) :
    ConceptAwareness × Except Err TD :=
  if l.top then
    match viewT (flatten3 o) l.n_classes with
    | none => (l, .error .shapeMismatch)
    | some v =>
      ({ l with conceptizator := { l.conceptizator with concepts := some (.t2 (tr2 v)) } },
       .ok (.t2 (tr2 v)))
  else (l, .ok (.t3 o))

/-- `ConceptAwareness.forward` (lines 49-65): promote a 2-D input, record it as
the Conceptizator `concepts`, optionally apply the shrink gate, project through
the per-class weight and bias, and reshape when `top` is set.  Inputs whose
rank the module never produces are mapped to a shape error at the multiply. -/
def ConceptAwareness.forward (exp sqrt : ℚ → ℚ) (l : ConceptAwareness) (input : TD) :
    ConceptAwareness × Except Err TD :=
  let inp := promoteTD input
  let l1 := { l with conceptizator := { l.conceptizator with concepts := some inp } }
  match inp with
  | .t3 x =>
    if l.shrink then
      let g := l.gammaOf sqrt
      let a := l.alphaOf exp sqrt
      match l.betaOf exp sqrt with
      | none => ({ l1 with gamma := some g, alpha := some a }, .error .shapeMismatch)
      | some bta =>
        let l2 := { l1 with gamma := some g, alpha := some a, beta := some bta }
        match bop3 (· * ·) x (unsq1of2 bta) with
        | none => (l2, .error .shapeMismatch)
        | some xg =>
          match l2.project xg with
          | .error e => (l2, .error e)
          | .ok o => l2.finishTop o
    else
      match l1.project x with
      | .error e => (l1, .error e)
      | .ok o => l1.finishTop o
  | _ => (l1, .error .shapeMismatch)

/-- The `Logic` layer: a plain linear layer (`weight : (out, in)`,
`bias : (out)`) preceded by a Conceptizator activation. -/
structure Logic where
  in_features : Nat
  out_features : Nat
  activation : String
  top : Bool
  weight : T2
  bias : Option T1
  conceptizator : Conceptizator
  deriving DecidableEq

/-- `Logic.__init__` with the random parameter entries supplied as functions. -/
def mkLogic (inF outF : Nat) (activation : String) (biasFlag : Bool) (top : Bool)
    (wv : Nat → Nat → ℚ) (bv : Nat → ℚ) : Logic :=
  { in_features := inF
    out_features := outF
    activation := activation
    top := top
    weight := tof2 outF inF wv
    bias := if biasFlag then some (tof1 outF bv) else none
    conceptizator := { mode := activation, concepts := none } }

/-- `torch.nn.functional.linear(x, weight, bias)`: `x @ weight.t() + bias`,
with the bias addition skipped when the bias is `None`. -/
def linearTD (x : TD) (w : T2) (b : Option T1) : Except Err TD :=
  match matmulR2 x (tr2 w) with
  | none => .error .shapeMismatch
  | some z =>
    match b with
    | none => .ok z
    | some bb =>
      match addBias1 z bb with
      | none => .error .shapeMismatch
      | some r => .ok r

/-- `Logic.forward` (lines 86-90): activate through the Conceptizator; apply
the linear projection unless the layer is `top`.  The Conceptizator nonlinearity
for this layer's activation mode is the parameter `act`. -/
def Logic.forward (act : ℚ → ℚ) (l : Logic) (input : TD) : Logic × Except Err TD :=
  let (c, x) := Conceptizator.forward act l.conceptizator input
  if l.top then ({ l with conceptizator := c }, .ok x)
  else ({ l with conceptizator := c }, linearTD x l.weight l.bias)

/-- The `Attention` layer: key/query/value cross-attention parameters plus a
per-class output projection, and the last-computed softmax scores. -/
structure Attention where
  in_features : Nat
  out_features : Nat
  n_classes : Nat
  first : Bool
  d_key_query : Nat
  d_value : Nat
  w_key : T4
  w_query : T3
  w_value : T3
  weight : T4
  bias : T3
  attn_scores_softmax : Option T3
  deriving DecidableEq

/-- `Attention.__init__`: `d_key_query = 5`, `d_value = 1`, with parameter
tensors of the declared shapes, entries supplied as functions. -/
def mkAttention (inF outF nClasses : Nat) (first : Bool)
    (kv : Nat → Nat → Nat → Nat → ℚ) (qv : Nat → Nat → Nat → ℚ)
    (vv : Nat → Nat → Nat → ℚ) (wv : Nat → Nat → Nat → Nat → ℚ)
    (bv : Nat → Nat → Nat → ℚ) : Attention :=
  { in_features := inF
    out_features := outF
    n_classes := nClasses
    first := first
    d_key_query := 5
    d_value := 1
    w_key := tof4 nClasses 1 1 5 kv
    w_query := tof3 nClasses 1 5 qv
    w_value := tof3 nClasses 1 1 vv
    weight := tof4 nClasses 1 inF outF wv
    bias := tof3 nClasses 1 outF bv
    attn_scores_softmax := none }

/-- Lines 140-143: weight the values, project through the per-class weight,
squeeze, and add the bias. -/
def Attention.output (a : Attention) (wv : T3) : Except Err TD :=
  match matmul44 (unsqPenult3 wv) a.weight with
  | none => .error .shapeMismatch
  | some o4 =>
    match (if 1 < a.out_features then squeezeAll4 o4 else squeezeLast4 o4) with
    | none => .error .shapeMismatch
    | some sq =>
      match addT3 sq a.bias with
      | none => .error .shapeMismatch
      | some r => .ok r

/-- `Attention.forward` (lines 129-145): keys from `x`, queries from the
transposed labels `y`, values as `x` scaled by `w_value`; raw scores averaged
over the batch, softmax-normalized across the class axis and stored; values
weighted by the scores rescaled by their per-class maximum, then projected.
`x` must be rank 3 after the optional `first` unsqueeze and `y` rank 2 (the
only ranks the module produces; anything else is a shape error). -/
def Attention.forward (exp : ℚ → ℚ) (a : Attention) (x y : TD) :
    Attention × Except Err TD :=
  let x1 := if a.first then unsqueeze0TD x else x
  match x1, y with
  | .t3 xx, .t2 ym =>
    let yt := tr2 ym
    match matmul44 (unsqLast3 xx) a.w_key with
    | none => (a, .error .shapeMismatch)
    | some keys =>
      match matmul33 (unsqLast2 yt) a.w_query with
      | none => (a, .error .shapeMismatch)
      | some querys =>
        match bop3 (· * ·) xx a.w_value with
        | none => (a, .error .shapeMismatch)
        | some values =>
          match matmul44 keys (unsqLast3 querys) with
          | none => (a, .error .shapeMismatch)
          | some attn_scores =>
            let avg := permute021 (mean1of4 attn_scores)
            let asm := softmaxLast3 exp avg
            let a1 := { a with attn_scores_softmax := some asm }
            match bop3 (· / ·) asm (unsqLast2 (maxLast3 asm)) with
            | none => (a1, .error .shapeMismatch)
            | some resc =>
              match bop3 (· * ·) values resc with
              | none => (a1, .error .shapeMismatch)
              | some weighted => (a1, a1.output weighted)
  | _, _ => (a, .error .shapeMismatch)

/-- A module the `Sequential` container can hold. -/
inductive Module where
  | caw (c : ConceptAwareness)
  | logic (lg : Logic)
  | attn (a : Attention)
  deriving DecidableEq

/-- `isinstance(module, Attention)`. -/
def Module.isAttention : Module → Bool
  | .attn _ => true
  | _ => false

/-- Invoke a module with the single tensor `x` (`module(x)`).  Calling an
`Attention` module this way omits its required argument `y`, which raises a
missing-argument error.  `actOf` selects the Conceptizator nonlinearity for a
`Logic` layer's activation mode. -/
def applyModule (exp sqrt : ℚ → ℚ) (actOf : String → ℚ → ℚ) (m : Module) (x : TD) :
    Module × Except Err TD :=
  match m with
  | .caw c => let (c2, r) := ConceptAwareness.forward exp sqrt c x; (.caw c2, r)
  | .logic lg => let (lg2, r) := Logic.forward (actOf lg.activation) lg x; (.logic lg2, r)
  | .attn _ => (m, .error .missingArgument)

/-- One iteration of the `Sequential.forward` loop (lines 102-105): an
`Attention` module is invoked with `(x, y)` exactly when `train` is set; every
other call passes `x` alone. -/
def stepModule (exp sqrt : ℚ → ℚ) (actOf : String → ℚ → ℚ) (train : Bool)
    (m : Module) (x y : TD) : Module × Except Err TD :=
  match m, train with
  | .attn a, true => let (a2, r) := Attention.forward exp a x y; (.attn a2, r)
  | m, _ => applyModule exp sqrt actOf m x

/-- The loop of `Sequential.forward` (lines 101-105).  An error propagates
immediately, as a Python exception does. -/
def runModules (exp sqrt : ℚ → ℚ) (actOf : String → ℚ → ℚ) :
    List Module → TD → TD → Bool → List Module × Except Err TD
  | [], x, _, _ => ([], .ok x)
  | m :: rest, x, y, train =>
    match stepModule exp sqrt actOf train m x y with
    | (m2, .ok x2) =>
      let (rest2, r2) := runModules exp sqrt actOf rest x2 y train
      (m2 :: rest2, r2)
    | (m2, .error e) => (m2 :: rest, .error e)

/-- `Sequential.forward` (lines 98-106): unpack `(x, y)` and fold the modules. -/
def Sequential.forward (exp sqrt : ℚ → ℚ) (actOf : String → ℚ → ℚ)
    (mods : List Module) (input : TD × TD) (train : Bool) :
    List Module × Except Err TD :=
  runModules exp sqrt actOf mods input.1 input.2 train

deriving instance DecidableEq for Except

/-- Concrete `Logic` layers for the C3 witness. -/
def lgTop : Logic := mkLogic 2 2 "identity" true true (fun _ _ => 1) (fun _ => 0)

/-- Concrete non-top `Logic` layer for the C3 witness. -/
def lgLin : Logic := mkLogic 2 2 "identity" true false (fun _ _ => 1) (fun _ => 0)

/-- Concrete tiny non-top layer for witnesses. -/
def lTiny : ConceptAwareness :=
  mkConceptAwareness 1 1 1 false none false true (fun _ _ _ => 2) (fun _ _ _ => 3)

/-- Concrete tiny top layer for witnesses. -/
def lTinyTop : ConceptAwareness :=
  mkConceptAwareness 1 1 1 false none true true (fun _ _ _ => 2) (fun _ _ _ => 3)

/-- Concrete layer whose input below has a mismatched inner dimension. -/
def cawNarrow : ConceptAwareness :=
  mkConceptAwareness 2 1 1 false none false true (fun _ _ i => (i + 1 : ℚ)) (fun _ _ _ => 0)

/-- Concrete `Attention` layer used in the `Sequential` claims. -/
def attnX : Attention :=
  mkAttention 1 1 1 false (fun _ _ _ _ => 0) (fun _ _ _ => 0) (fun _ _ _ => 0)
    (fun _ _ _ _ => 0) (fun _ _ _ => 0)

/-- Sum of `h i` over `i < n` (used to state reduction results). -/
def sumR (n : Nat) (h : Nat → ℚ) : ℚ := ((List.range n).map h).sum

/-- Modelled from the spec: the claim's reading of line 55, a gamma made of
per-class, per-OUTPUT-feature weight-vector norms (for each output feature,
the norm of its weight vector across input features). -/
def gammaSpecPerOutput (sqrt : ℚ → ℚ) (l : ConceptAwareness) : T2 :=
  tof2 l.n_classes l.out_features fun c o =>
    sqrt (sumR l.in_features fun i =>
      ((l.weight.getD c []).getD o []).getD i 0 *
      ((l.weight.getD c []).getD o []).getD i 0)

/-- Concrete shrink-mode layer whose gamma distinguishes the two readings. -/
def cawShrinkC4 : ConceptAwareness :=
  mkConceptAwareness 2 1 1 false (some 1) false true
    (fun _ _ i => if i = 0 then 3 else 4) (fun _ _ _ => 0)

end TorchExplain


namespace TorchExplain

/-- Helper: `project` can only succeed when the layer has a bias tensor
(the `+ self.bias` is unconditional). -/
lemma project_ok_bias (l : ConceptAwareness) (xg o : T3)
    (h : l.project xg = .ok o) : ∃ b, l.bias = some b := by
  revert h
  unfold ConceptAwareness.project
  repeat' first
    | (intro h; cases h)
    | (intro h; exact ⟨_, by assumption⟩)
    | split

/-- Helper: a successful `ConceptAwareness.forward` requires a bias tensor. -/
lemma forward_ok_needs_bias (exp sqrt : ℚ → ℚ) (l : ConceptAwareness) (x out : TD)
    (h : (ConceptAwareness.forward exp sqrt l x).2 = .ok out) : ∃ b, l.bias = some b := by
  revert h
  simp only [ConceptAwareness.forward, ConceptAwareness.finishTop]
  repeat' first
    | (intro h; injection h)
    | (intro h; exact project_ok_bias _ _ _ (by assumption))
    | split

/-- C7: the `awareness` constructor flag has no effect on `forward`: two
instances identical except for `awareness` produce identical results on the
same input; likewise the numeric value of `n_heads` never affects the output
beyond the check that it is set: any two non-`None` values give identical
behavior. -/
theorem c7_awareness_and_nheads_value_no_effect (exp sqrt : ℚ → ℚ)
    (inF outF nC : Nat) (aw1 aw2 : Bool) (nh : Option Nat) (nh1 nh2 : Nat)
    (top biasFlag : Bool) (wv bv : Nat → Nat → Nat → ℚ) (x : TD) :
    (ConceptAwareness.forward exp sqrt
        (mkConceptAwareness inF outF nC aw1 nh top biasFlag wv bv) x).2 =
      (ConceptAwareness.forward exp sqrt
        (mkConceptAwareness inF outF nC aw2 nh top biasFlag wv bv) x).2 ∧
    (ConceptAwareness.forward exp sqrt
        (mkConceptAwareness inF outF nC aw1 (some nh1) top biasFlag wv bv) x).2 =
      (ConceptAwareness.forward exp sqrt
        (mkConceptAwareness inF outF nC aw1 (some nh2) top biasFlag wv bv) x).2 := by
  constructor <;>
  · simp only [ConceptAwareness.forward, mkConceptAwareness, ConceptAwareness.betaOf,
      ConceptAwareness.alphaOf, ConceptAwareness.gammaOf, ConceptAwareness.project,
      ConceptAwareness.finishTop, Option.isSome]
    cases promoteTD x <;> simp only []
    repeat' first
      | rfl
      | split

/-- C3: `Logic.forward` with `top=True` returns exactly the
Conceptizator-activated input elementwise, independently of `weight` and
`bias`; with `top=False` it returns `linear(activation(input), weight, bias)`. -/
theorem c3_logic_forward_top_and_linear (act : ℚ → ℚ) (l : Logic) (x : TD) :
    (l.top = true →
      (Logic.forward act l x).2 = .ok (mapTD act x) ∧
      ∀ w2 b2, (Logic.forward act { l with weight := w2, bias := b2 } x).2 =
        (Logic.forward act l x).2) ∧
    (l.top = false →
      (Logic.forward act l x).2 = linearTD (mapTD act x) l.weight l.bias) := by
  unfold Logic.forward Conceptizator.forward
  rcases l with ⟨i, o, av, tp, w, b, c⟩
  cases tp <;> simp



/-- Witness for C3 at concrete layers and input. -/
theorem c3_logic_forward_top_and_linear_witness :
    (Logic.forward (fun q => q) lgTop (.t1 [1, 2])).2 = .ok (mapTD (fun q => q) (.t1 [1, 2])) ∧
    (Logic.forward (fun q => q) lgLin (.t1 [1, 2])).2 =
      linearTD (mapTD (fun q => q) (.t1 [1, 2])) lgLin.weight lgLin.bias :=
  ⟨((c3_logic_forward_top_and_linear (fun q => q) lgTop (.t1 [1, 2])).1 rfl).1,
   (c3_logic_forward_top_and_linear (fun q => q) lgLin (.t1 [1, 2])).2 rfl⟩

/-- C9: a `ConceptAwareness` layer constructed with `bias=False` is accepted at
construction with the bias registered as absent, but every forward call raises;
whenever the matrix multiply itself succeeds, the error is precisely the
unsupported `+ None` both paths execute. -/
theorem c9_bias_false_accepted_but_forward_raises (exp sqrt : ℚ → ℚ)
    (inF outF nC : Nat) (aw : Bool) (nh : Option Nat) (top : Bool)
    (wv bv : Nat → Nat → Nat → ℚ) :
    (mkConceptAwareness inF outF nC aw nh top false wv bv).bias = none ∧
    (∀ x : TD, ∃ e, (ConceptAwareness.forward exp sqrt
        (mkConceptAwareness inF outF nC aw nh top false wv bv) x).2 = .error e) ∧
    (∀ xg mm, matmul33 xg
        (permute021 (mkConceptAwareness inF outF nC aw nh top false wv bv).weight) = some mm →
      (mkConceptAwareness inF outF nC aw nh top false wv bv).project xg =
        .error .unsupportedOperand) := by
  refine ⟨by simp [mkConceptAwareness], fun x => ?_, fun xg mm h => ?_⟩
  · rcases hr : (ConceptAwareness.forward exp sqrt
        (mkConceptAwareness inF outF nC aw nh top false wv bv) x).2 with e | out
    · exact ⟨e, rfl⟩
    · exact absurd (forward_ok_needs_bias _ _ _ _ _ hr).choose_spec
        (by simp [mkConceptAwareness])
  · unfold ConceptAwareness.project
    rw [h]
    simp [mkConceptAwareness]

/-- Witness for C9: a concrete shape-correct multiply still yields the
unsupported-operand error. -/
theorem c9_bias_false_accepted_but_forward_raises_witness :
    (mkConceptAwareness 1 1 1 false none false false
        (fun _ _ _ => 2) (fun _ _ _ => 0)).project [[[5]]] = .error .unsupportedOperand :=
  (c9_bias_false_accepted_but_forward_raises (fun q => q) (fun q => q) 1 1 1 false none false
    (fun _ _ _ => 2) (fun _ _ _ => 0)).2.2 [[[5]]] [[[10]]] (by with_unfolding_all decide)

/-- C8: on a successful forward call the Conceptizator snapshot is
last-write-wins: it equals the class-axis-promoted input, except that a
`top=True` forward overwrites it again so it equals the returned tensor. -/
theorem c8_concepts_snapshot_last_write (exp sqrt : ℚ → ℚ) (l : ConceptAwareness)
    (x out : TD) (h : (ConceptAwareness.forward exp sqrt l x).2 = .ok out) :
    (l.top = false →
      (ConceptAwareness.forward exp sqrt l x).1.conceptizator.concepts =
        some (promoteTD x)) ∧
    (l.top = true →
      (ConceptAwareness.forward exp sqrt l x).1.conceptizator.concepts = some out) := by
  revert h
  simp only [ConceptAwareness.forward, ConceptAwareness.finishTop]
  repeat' first
    | (intro h; injection h with h2; subst h2; constructor <;> intro ht <;> simp_all)
    | (intro h; injection h)
    | split



/-- Witness for C8 on concrete non-top and top layers. -/
theorem c8_concepts_snapshot_last_write_witness :
    (ConceptAwareness.forward (fun q => q) (fun q => q) lTiny
        (.t2 [[5]])).1.conceptizator.concepts = some (promoteTD (.t2 [[5]])) ∧
    (ConceptAwareness.forward (fun q => q) (fun q => q) lTinyTop
        (.t2 [[5]])).1.conceptizator.concepts = some (.t2 [[13]]) :=
  ⟨(c8_concepts_snapshot_last_write (fun q => q) (fun q => q) lTiny (.t2 [[5]])
      (.t3 [[[13]]]) (by with_unfolding_all decide)).1 rfl,
   (c8_concepts_snapshot_last_write (fun q => q) (fun q => q) lTinyTop (.t2 [[5]])
      (.t2 [[13]]) (by with_unfolding_all decide)).2 rfl⟩


/-- C6 counterexample: a forward call that raises at the matrix multiply has
already overwritten the Conceptizator `concepts` snapshot, so the snapshot is
not the same as before the call. -/
theorem c6_forward_atomicity_refuted :
    (ConceptAwareness.forward (fun q => q) (fun q => q) cawNarrow
        (.t2 [[1, 2, 3]])).2 = .error .shapeMismatch ∧
    (ConceptAwareness.forward (fun q => q) (fun q => q) cawNarrow
        (.t2 [[1, 2, 3]])).1.conceptizator.concepts ≠
      cawNarrow.conceptizator.concepts := by decide

/-- C6 amended: a forward pass either fully succeeds or raises, but when it
raises the `concepts` snapshot has already been overwritten with the promoted
input of the failing call (the write precedes the multiply). -/
theorem c6_forward_error_concepts_overwritten (exp sqrt : ℚ → ℚ)
    (l : ConceptAwareness) (x : TD) (e : Err)
    (h : (ConceptAwareness.forward exp sqrt l x).2 = .error e) :
    (ConceptAwareness.forward exp sqrt l x).1.conceptizator.concepts =
      some (promoteTD x) := by
  revert h
  simp only [ConceptAwareness.forward, ConceptAwareness.finishTop]
  repeat' first
    | rfl
    | (intro h; injection h)
    | split

/-- Witness for the amended C6 at a concrete failing call. -/
theorem c6_forward_error_concepts_overwritten_witness :
    (ConceptAwareness.forward (fun q => q) (fun q => q) cawNarrow
        (.t2 [[1, 2, 3]])).1.conceptizator.concepts =
      some (promoteTD (.t2 [[1, 2, 3]])) :=
  c6_forward_error_concepts_overwritten (fun q => q) (fun q => q) cawNarrow
    (.t2 [[1, 2, 3]]) .shapeMismatch (by decide)


/-- C1 counterexample: with `train=False` a `Sequential` container does not
skip an `Attention` layer: it invokes it with `x` alone, which raises a
missing-argument error, so `x` does not pass through unchanged. -/
theorem c1_train_false_skip_refuted :
    (Sequential.forward (fun q => q) (fun q => q) (fun _ q => q) [.attn attnX]
        (.t3 [[[1]]], .t2 [[1]]) false).2 = .error .missingArgument ∧
    (Sequential.forward (fun q => q) (fun q => q) (fun _ q => q) [.attn attnX]
        (.t3 [[[1]]], .t2 [[1]]) false).2 ≠ .ok (.t3 [[[1]]]) := by decide

/-- Helper: with `train=False` every module, including an `Attention`, is
invoked with `x` alone. -/
lemma stepModule_train_false (exp sqrt : ℚ → ℚ) (actOf : String → ℚ → ℚ)
    (m : Module) (x y : TD) :
    stepModule exp sqrt actOf false m x y = applyModule exp sqrt actOf m x := by
  cases m <;> rfl

/-- C1 amended: with `train=False` the container invokes every module with `x`
alone; when it reaches an `Attention` layer (after the preceding modules
succeed) this call omits the required label `y` and the forward pass raises a
missing-argument error instead of skipping the layer. -/
theorem c1_train_false_attention_invoked_raises (exp sqrt : ℚ → ℚ)
    (actOf : String → ℚ → ℚ) (pre : List Module) (a : Attention)
    (post : List Module) (x y x2 : TD) (mods2 : List Module)
    (h : runModules exp sqrt actOf pre x y false = (mods2, .ok x2)) :
    (Sequential.forward exp sqrt actOf (pre ++ .attn a :: post) (x, y) false).2 =
      .error .missingArgument := by
  unfold Sequential.forward
  induction pre generalizing x mods2 with
  | nil =>
    simp [runModules, stepModule, applyModule]
  | cons m pre ih =>
    rcases happ : applyModule exp sqrt actOf m x with ⟨m2, r⟩
    rw [List.cons_append]
    rcases r with e | x3
    · rw [runModules] at h
      rw [stepModule_train_false, happ] at h
      simp at h
    · rcases hrun : runModules exp sqrt actOf pre x3 y false with ⟨ms, rr⟩
      rw [runModules] at h ⊢
      rw [stepModule_train_false, happ] at h ⊢
      simp only [hrun] at h
      simp only [Prod.mk.injEq] at h
      exact ih x3 ms (by rw [hrun, h.2])

/-- Witness for the amended C1 with an empty prefix. -/
theorem c1_train_false_attention_invoked_raises_witness :
    (Sequential.forward (fun q => q) (fun q => q) (fun _ q => q)
        ([] ++ Module.attn attnX :: []) (.t1 [0], .t1 [0]) false).2 =
      .error .missingArgument :=
  c1_train_false_attention_invoked_raises (fun q => q) (fun q => q) (fun _ q => q)
    [] attnX [] (.t1 [0]) (.t1 [0]) (.t1 [0]) [] rfl

end TorchExplain

namespace TorchExplain

lemma sh1_iff (v : T1) (n : Nat) : sh1 v n = true ↔ v.length = n := by
  simp [sh1]

lemma sh2_iff (m : T2) (a b : Nat) :
    sh2 m a b = true ↔ m.length = a ∧ ∀ r ∈ m, r.length = b := by
  simp [sh2, sh1, List.all_eq_true]

lemma sh3_iff (t : T3) (a b c : Nat) :
    sh3 t a b c = true ↔ t.length = a ∧ ∀ m ∈ t, sh2 m b c = true := by
  simp [sh3, List.all_eq_true]

lemma sh4_iff (t : T4) (a b c d : Nat) :
    sh4 t a b c d = true ↔ t.length = a ∧ ∀ m ∈ t, sh3 m b c d = true := by
  simp [sh4, List.all_eq_true]

lemma optMap_shape {g : α → Option β} {l : List α} {P : β → Prop}
    (h : ∀ a ∈ l, ∃ b, g a = some b ∧ P b) :
    ∃ bs, optMap g l = some bs ∧ bs.length = l.length ∧ ∀ b ∈ bs, P b := by
  induction l with
  | nil => exact ⟨[], rfl, rfl, by simp⟩
  | cons a as ih =>
    obtain ⟨b, hb, hPb⟩ := h a (by simp)
    obtain ⟨bs, hbs, hlen, hP⟩ := ih fun a ha => h a (by simp [ha])
    refine ⟨b :: bs, ?_, by simp [hlen], ?_⟩
    · simp [optMap, hb, hbs]
    · intro z hz
      rcases List.mem_cons.mp hz with h1 | h2
      · exact h1 ▸ hPb
      · exact hP z h2

lemma optMap_map {g : α → Option β} {l : List α} {ρ : α → β}
    (h : ∀ a ∈ l, g a = some (ρ a)) : optMap g l = some (l.map ρ) := by
  induction l with
  | nil => rfl
  | cons a as ih =>
    simp only [optMap, h a (by simp), ih fun a ha => h a (by simp [ha]), List.map_cons]

lemma zip_self_map (l : List α) (f : α → β) :
    l.zip (l.map f) = l.map fun a => (a, f a) := by
  induction l with
  | nil => rfl
  | cons a as ih => simp [ih]

lemma bcZip_shape_zip {op : α → β → Option γ} {xs : List α} {ys : List β}
    {P : γ → Prop} (hlen : xs.length = ys.length)
    (h : ∀ p ∈ xs.zip ys, ∃ z, op p.1 p.2 = some z ∧ P z) :
    ∃ zs, bcZip op xs ys = some zs ∧ zs.length = xs.length ∧ ∀ z ∈ zs, P z := by
  obtain ⟨zs, hzs, hl, hP⟩ := optMap_shape h
  refine ⟨zs, ?_, ?_, hP⟩
  · simp [bcZip, hlen, hzs]
  · simp [hl, hlen]

lemma bcZip_shape_right_one {op : α → β → Option γ} {xs : List α} {y0 : β}
    {P : γ → Prop} (h : ∀ a ∈ xs, ∃ z, op a y0 = some z ∧ P z) :
    ∃ zs, bcZip op xs [y0] = some zs ∧ zs.length = xs.length ∧ ∀ z ∈ zs, P z := by
  by_cases hx : xs.length = 1
  · obtain ⟨x0, rfl⟩ := List.length_eq_one.mp hx
    obtain ⟨z, hz, hPz⟩ := h x0 (by simp)
    exact ⟨[z], by simp [bcZip, optMap, hz], rfl, by simpa using hPz⟩
  · obtain ⟨zs, hzs, hl, hP⟩ := optMap_shape (g := fun a => op a y0) h
    refine ⟨zs, ?_, hl, hP⟩
    have h1 : ¬(xs.length = [y0].length) := by simpa using hx
    simp [bcZip, h1, hx, hzs]

lemma bcZip_shape_left_one {op : α → β → Option γ} {x0 : α} {ys : List β}
    {P : γ → Prop} (h : ∀ y ∈ ys, ∃ z, op x0 y = some z ∧ P z) :
    ∃ zs, bcZip op [x0] ys = some zs ∧ zs.length = ys.length ∧ ∀ z ∈ zs, P z := by
  by_cases hy : ys.length = 1
  · obtain ⟨y0, rfl⟩ := List.length_eq_one.mp hy
    obtain ⟨z, hz, hPz⟩ := h y0 (by simp)
    exact ⟨[z], by simp [bcZip, optMap, hz], rfl, by simpa using hPz⟩
  · obtain ⟨zs, hzs, hl, hP⟩ := optMap_shape (g := op x0) h
    refine ⟨zs, ?_, hl, hP⟩
    have hne : ¬([x0].length = ys.length) := by simpa using fun hh => hy hh.symm
    simp [bcZip, hne, hzs]
    exact fun hh => absurd hh.symm hy

lemma bcZip_map_eq {op : α → β → Option γ} {l : List α} {f : α → β} {ρ : α → γ}
    (h : ∀ a ∈ l, op a (f a) = some (ρ a)) :
    bcZip op l (l.map f) = some (l.map ρ) := by
  have hlen : l.length = (l.map f).length := by simp
  simp only [bcZip, hlen, if_pos rfl, zip_self_map]
  have hstep : optMap (fun p => op p.1 p.2) (l.map fun a => (a, f a)) =
      some ((l.map fun a => (a, f a)).map fun p => ρ p.1) := by
    refine optMap_map ?_
    intro p hp
    obtain ⟨a, ha, rfl⟩ := List.mem_map.mp hp
    exact h a ha
  rw [hstep, List.map_map]
  rfl

end TorchExplain

namespace TorchExplain

lemma sh1_tof1 (n : Nat) (f : Nat → ℚ) : sh1 (tof1 n f) n = true := by
  simp [sh1, tof1]

lemma sh2_tof2 (a b : Nat) (f : Nat → Nat → ℚ) : sh2 (tof2 a b f) a b = true := by
  simp only [sh2, tof2, Bool.and_eq_true, beq_iff_eq, List.all_eq_true]
  refine ⟨by simp, ?_⟩
  intro r hr
  obtain ⟨i, _, rfl⟩ := List.mem_map.mp hr
  exact sh1_tof1 b (f i)

lemma sh3_tof3 (a b c : Nat) (f : Nat → Nat → Nat → ℚ) :
    sh3 (tof3 a b c f) a b c = true := by
  simp only [sh3, tof3, Bool.and_eq_true, beq_iff_eq, List.all_eq_true]
  refine ⟨by simp, ?_⟩
  intro m hm
  obtain ⟨i, _, rfl⟩ := List.mem_map.mp hm
  exact sh2_tof2 b c (f i)

lemma sh4_tof4 (a b c d : Nat) (f : Nat → Nat → Nat → Nat → ℚ) :
    sh4 (tof4 a b c d f) a b c d = true := by
  simp only [sh4, tof4, Bool.and_eq_true, beq_iff_eq, List.all_eq_true]
  refine ⟨by simp, ?_⟩
  intro m hm
  obtain ⟨i, _, rfl⟩ := List.mem_map.mp hm
  exact sh3_tof3 b c d (f i)

lemma width_of_sh2 {m : T2} {a b : Nat} (h : sh2 m a b = true) (ha : 0 < a) :
    width m = b := by
  rw [sh2_iff] at h
  obtain ⟨hlen, hrows⟩ := h
  rcases m with _ | ⟨r, rest⟩
  · simp at hlen; omega
  · exact hrows r (by simp)

lemma tr2_shape {m : T2} {a b : Nat} (h : sh2 m a b = true) (ha : 0 < a) :
    sh2 (tr2 m) b a = true := by
  have hw := width_of_sh2 h ha
  rw [sh2_iff] at h ⊢
  constructor
  · simp [tr2, hw]
  · intro r hr
    obtain ⟨j, _, rfl⟩ := List.mem_map.mp hr
    simp [h.1]

lemma mm2_shape {A B : T2} {m k n : Nat} (hA : sh2 A m k = true)
    (hB : sh2 B k n = true) (hk : 0 < k) :
    ∃ Z, mm2 A B = some Z ∧ sh2 Z m n = true := by
  have hw : width B = n := width_of_sh2 hB hk
  rw [sh2_iff] at hA hB
  refine ⟨A.map fun r => (tr2 B).map fun c => dot r c, ?_, ?_⟩
  · rw [mm2, if_pos]
    constructor
    · rw [List.all_eq_true]
      intro r hr
      simp [hA.2 r hr, hB.1]
    · rw [List.all_eq_true]
      intro r hr
      simp [hB.2 r hr, hw]
  · rw [sh2_iff]
    refine ⟨by simp [hA.1], ?_⟩
    intro r hr
    obtain ⟨r0, _, rfl⟩ := List.mem_map.mp hr
    simp [tr2, hw]

lemma sh2_singleton {m : T2} {b : Nat} (h : sh2 m 1 b = true) :
    ∃ r, m = [r] ∧ r.length = b := by
  rw [sh2_iff] at h
  obtain ⟨r, rfl⟩ := List.length_eq_one.mp h.1
  exact ⟨r, rfl, h.2 r (by simp)⟩

lemma sh3_singleton {t : T3} {b c : Nat} (h : sh3 t 1 b c = true) :
    ∃ m, t = [m] ∧ sh2 m b c = true := by
  rw [sh3_iff] at h
  obtain ⟨m, rfl⟩ := List.length_eq_one.mp h.1
  exact ⟨m, rfl, h.2 m (by simp)⟩

lemma matmul33_shape_same {x y : T3} {a m k n : Nat} (hx : sh3 x a m k = true)
    (hy : sh3 y a k n = true) (hk : 0 < k) :
    ∃ z, matmul33 x y = some z ∧ sh3 z a m n = true := by
  rw [sh3_iff] at hx hy
  have hin : ∀ p ∈ x.zip y, ∃ Z, mm2 p.1 p.2 = some Z ∧ sh2 Z m n = true := by
    intro p hp
    exact mm2_shape (hx.2 p.1 (List.of_mem_zip hp).1) (hy.2 p.2 (List.of_mem_zip hp).2) hk
  obtain ⟨zs, hzs, hlen, hP⟩ := bcZip_shape_zip (hx.1.trans hy.1.symm) hin
  exact ⟨zs, hzs, by rw [sh3_iff]; exact ⟨hlen.trans hx.1, hP⟩⟩

lemma matmul33_shape_left_one {x y : T3} {m k n a : Nat} (hx : sh3 x 1 m k = true)
    (hy : sh3 y a k n = true) (hk : 0 < k) :
    ∃ z, matmul33 x y = some z ∧ sh3 z a m n = true := by
  obtain ⟨x0, rfl, hx0⟩ := sh3_singleton hx
  rw [sh3_iff] at hy
  have hin : ∀ u ∈ y, ∃ Z, mm2 x0 u = some Z ∧ sh2 Z m n = true := by
    intro u hu
    exact mm2_shape hx0 (hy.2 u hu) hk
  obtain ⟨zs, hzs, hlen, hP⟩ := bcZip_shape_left_one hin
  exact ⟨zs, hzs, by rw [sh3_iff]; exact ⟨hlen.trans hy.1, hP⟩⟩

lemma matmul44_shape_same {x y : T4} {a b m k n : Nat} (hx : sh4 x a b m k = true)
    (hy : sh4 y a b k n = true) (hk : 0 < k) :
    ∃ z, matmul44 x y = some z ∧ sh4 z a b m n = true := by
  rw [sh4_iff] at hx hy
  have hin : ∀ p ∈ x.zip y, ∃ Z, matmul33 p.1 p.2 = some Z ∧ sh3 Z b m n = true := by
    intro p hp
    exact matmul33_shape_same (hx.2 p.1 (List.of_mem_zip hp).1)
      (hy.2 p.2 (List.of_mem_zip hp).2) hk
  obtain ⟨zs, hzs, hlen, hP⟩ := bcZip_shape_zip (hx.1.trans hy.1.symm) hin
  exact ⟨zs, hzs, by rw [sh4_iff]; exact ⟨hlen.trans hx.1, hP⟩⟩

lemma sh4_slice_one {t : T4} {b c d : Nat} (h : sh4 t 1 b c d = true) :
    ∃ m, t = [m] ∧ sh3 m b c d = true := by
  rw [sh4_iff] at h
  obtain ⟨m, rfl⟩ := List.length_eq_one.mp h.1
  exact ⟨m, rfl, h.2 m (by simp)⟩

lemma matmul33_shape_right_one {x y : T3} {b m k n : Nat} (hx : sh3 x b m k = true)
    (hy : sh3 y 1 k n = true) (hk : 0 < k) :
    ∃ z, matmul33 x y = some z ∧ sh3 z b m n = true := by
  obtain ⟨y0, rfl, hy0⟩ := sh3_singleton hy
  rw [sh3_iff] at hx
  have hin : ∀ u ∈ x, ∃ Z, mm2 u y0 = some Z ∧ sh2 Z m n = true := by
    intro u hu
    exact mm2_shape (hx.2 u hu) hy0 hk
  obtain ⟨zs, hzs, hlen, hP⟩ := bcZip_shape_right_one hin
  exact ⟨zs, hzs, by rw [sh3_iff]; exact ⟨hlen.trans hx.1, hP⟩⟩

lemma matmul44_shape_mid_one {x y : T4} {a b m k n : Nat} (hx : sh4 x a b m k = true)
    (hy : sh4 y a 1 k n = true) (hk : 0 < k) :
    ∃ z, matmul44 x y = some z ∧ sh4 z a b m n = true := by
  rw [sh4_iff] at hx hy
  have hin : ∀ p ∈ x.zip y, ∃ Z, matmul33 p.1 p.2 = some Z ∧ sh3 Z b m n = true := by
    intro p hp
    exact matmul33_shape_right_one (hx.2 p.1 (List.of_mem_zip hp).1)
      (hy.2 p.2 (List.of_mem_zip hp).2) hk
  obtain ⟨zs, hzs, hlen, hP⟩ := bcZip_shape_zip (hx.1.trans hy.1.symm) hin
  exact ⟨zs, hzs, by rw [sh4_iff]; exact ⟨hlen.trans hx.1, hP⟩⟩

end TorchExplain

namespace TorchExplain

lemma bop1_shape_same {f : ℚ → ℚ → ℚ} {v w : T1} {n : Nat} (hv : v.length = n)
    (hw : w.length = n) : ∃ z, bop1 f v w = some z ∧ z.length = n := by
  obtain ⟨zs, hzs, hlen, _⟩ := @bcZip_shape_zip _ _ _ (fun a b => some (f a b)) v w
    (fun _ => True) (hv.trans hw.symm) (fun p _ => ⟨f p.1 p.2, rfl, trivial⟩)
  exact ⟨zs, hzs, hlen.trans hv⟩

lemma bop1_right_one {f : ℚ → ℚ → ℚ} (v : T1) (c : ℚ) :
    bop1 f v [c] = some (v.map fun a => f a c) := by
  by_cases hv : v.length = 1
  · obtain ⟨a, rfl⟩ := List.length_eq_one.mp hv
    simp [bop1, bcZip, optMap]
  · have h1 : ¬(v.length = [c].length) := by simpa using hv
    have h2 : optMap (fun a => some (f a c)) v = some (v.map fun a => f a c) :=
      optMap_map fun a _ => rfl
    simp [bop1, bcZip, h1, hv, h2]

lemma bop2_shape_bc {f : ℚ → ℚ → ℚ} {x y : T2} {a b : Nat}
    (hx : sh2 x a b = true) (hy : sh2 y a 1 = true) :
    ∃ z, bop2 f x y = some z ∧ sh2 z a b = true := by
  rw [sh2_iff] at hx hy
  have hin : ∀ p ∈ x.zip y, ∃ z, bop1 f p.1 p.2 = some z ∧ z.length = b := by
    intro p hp
    obtain ⟨c, hc⟩ := List.length_eq_one.mp (hy.2 p.2 (List.of_mem_zip hp).2)
    rw [hc, bop1_right_one]
    exact ⟨_, rfl, by simp [hx.2 p.1 (List.of_mem_zip hp).1]⟩
  obtain ⟨zs, hzs, hlen, hP⟩ := bcZip_shape_zip (hx.1.trans hy.1.symm) hin
  exact ⟨zs, hzs, by rw [sh2_iff]; exact ⟨hlen.trans hx.1, hP⟩⟩

lemma bop2_shape_mid_one {f : ℚ → ℚ → ℚ} {x y : T2} {a b : Nat}
    (hx : sh2 x a b = true) (hy : sh2 y 1 b = true) :
    ∃ z, bop2 f x y = some z ∧ sh2 z a b = true := by
  obtain ⟨r, rfl, hr⟩ := sh2_singleton hy
  rw [sh2_iff] at hx
  have hin : ∀ u ∈ x, ∃ z, bop1 f u r = some z ∧ z.length = b := by
    intro u hu
    obtain ⟨z, hz, hl⟩ := bop1_shape_same (hx.2 u hu) hr
    exact ⟨z, hz, hl⟩
  obtain ⟨zs, hzs, hlen, hP⟩ := bcZip_shape_right_one hin
  exact ⟨zs, hzs, by rw [sh2_iff]; exact ⟨hlen.trans hx.1, hP⟩⟩

lemma bop3_shape_mid_one {f : ℚ → ℚ → ℚ} {x y : T3} {a b c : Nat}
    (hx : sh3 x a b c = true) (hy : sh3 y a 1 c = true) :
    ∃ z, bop3 f x y = some z ∧ sh3 z a b c = true := by
  rw [sh3_iff] at hx hy
  have hin : ∀ p ∈ x.zip y, ∃ z, bop2 f p.1 p.2 = some z ∧ sh2 z b c = true := by
    intro p hp
    exact bop2_shape_mid_one (hx.2 p.1 (List.of_mem_zip hp).1) (hy.2 p.2 (List.of_mem_zip hp).2)
  obtain ⟨zs, hzs, hlen, hP⟩ := bcZip_shape_zip (hx.1.trans hy.1.symm) hin
  exact ⟨zs, hzs, by rw [sh3_iff]; exact ⟨hlen.trans hx.1, hP⟩⟩

lemma bop3_shape_left_one {f : ℚ → ℚ → ℚ} {x y : T3} {a b c : Nat}
    (hx : sh3 x 1 b c = true) (hy : sh3 y a 1 c = true) :
    ∃ z, bop3 f x y = some z ∧ sh3 z a b c = true := by
  obtain ⟨m, rfl, hm⟩ := sh3_singleton hx
  rw [sh3_iff] at hy
  have hin : ∀ u ∈ y, ∃ z, bop2 f m u = some z ∧ sh2 z b c = true := by
    intro u hu
    exact bop2_shape_mid_one hm (hy.2 u hu)
  obtain ⟨zs, hzs, hlen, hP⟩ := bcZip_shape_left_one hin
  exact ⟨zs, hzs, by rw [sh3_iff]; exact ⟨hlen.trans hy.1, hP⟩⟩

lemma bop3_shape_inner_one {f : ℚ → ℚ → ℚ} {x y : T3} {a b c : Nat}
    (hx : sh3 x a b c = true) (hy : sh3 y a 1 1 = true) :
    ∃ z, bop3 f x y = some z ∧ sh3 z a b c = true := by
  rw [sh3_iff] at hx hy
  have hin : ∀ p ∈ x.zip y, ∃ z, bop2 f p.1 p.2 = some z ∧ sh2 z b c = true := by
    intro p hp
    have hp1 := hx.2 p.1 (List.of_mem_zip hp).1
    obtain ⟨r, hr, hrl⟩ := sh2_singleton (hy.2 p.2 (List.of_mem_zip hp).2)
    obtain ⟨q, rfl⟩ := List.length_eq_one.mp hrl
    rw [sh2_iff] at hp1
    have hin2 : ∀ u ∈ p.1, ∃ z, bop1 f u [q] = some z ∧ z.length = c := by
      intro u hu
      rw [bop1_right_one]
      exact ⟨_, rfl, by simp [hp1.2 u hu]⟩
    rw [hr]
    obtain ⟨zs2, hzs2, hlen2, hP2⟩ := bcZip_shape_right_one hin2
    exact ⟨zs2, hzs2, by rw [sh2_iff]; exact ⟨hlen2.trans hp1.1, hP2⟩⟩
  obtain ⟨zs, hzs, hlen, hP⟩ := bcZip_shape_zip (hx.1.trans hy.1.symm) hin
  exact ⟨zs, hzs, by rw [sh3_iff]; exact ⟨hlen.trans hx.1, hP⟩⟩

end TorchExplain

namespace TorchExplain

lemma unsq1of1_shape {v : T1} {n : Nat} (h : v.length = n) :
    sh2 (unsq1of1 v) n 1 = true := by
  rw [sh2_iff]
  refine ⟨by simp [unsq1of1, h], ?_⟩
  intro r hr
  obtain ⟨q, _, rfl⟩ := List.mem_map.mp hr
  rfl

lemma unsq1of2_shape {m : T2} {a b : Nat} (h : sh2 m a b = true) :
    sh3 (unsq1of2 m) a 1 b = true := by
  rw [sh2_iff] at h
  rw [sh3_iff]
  refine ⟨by simp [unsq1of2, h.1], ?_⟩
  intro u hu
  obtain ⟨r, hr, rfl⟩ := List.mem_map.mp hu
  rw [sh2_iff]
  exact ⟨rfl, by simpa using h.2 r hr⟩

lemma unsqLast2_shape {m : T2} {a b : Nat} (h : sh2 m a b = true) :
    sh3 (unsqLast2 m) a b 1 = true := by
  rw [sh2_iff] at h
  rw [sh3_iff]
  refine ⟨by simp [unsqLast2, h.1], ?_⟩
  intro u hu
  obtain ⟨r, hr, rfl⟩ := List.mem_map.mp hu
  rw [sh2_iff]
  refine ⟨by simpa using h.2 r hr, ?_⟩
  intro q hq
  obtain ⟨_, _, rfl⟩ := List.mem_map.mp hq
  rfl

lemma unsqLast3_shape {t : T3} {a b c : Nat} (h : sh3 t a b c = true) :
    sh4 (unsqLast3 t) a b c 1 = true := by
  rw [sh3_iff] at h
  rw [sh4_iff]
  refine ⟨by simp [unsqLast3, h.1], ?_⟩
  intro u hu
  obtain ⟨m, hm, rfl⟩ := List.mem_map.mp hu
  exact unsqLast2_shape (h.2 m hm)

lemma unsqPenult3_shape {t : T3} {a b c : Nat} (h : sh3 t a b c = true) :
    sh4 (unsqPenult3 t) a b 1 c = true := by
  rw [sh3_iff] at h
  rw [sh4_iff]
  refine ⟨by simp [unsqPenult3, h.1], ?_⟩
  intro u hu
  obtain ⟨m, hm, rfl⟩ := List.mem_map.mp hu
  have h2 := h.2 m hm
  rw [sh2_iff] at h2
  rw [sh3_iff]
  refine ⟨by simp [h2.1], ?_⟩
  intro w hw
  obtain ⟨r, hr, rfl⟩ := List.mem_map.mp hw
  rw [sh2_iff]
  exact ⟨rfl, by simpa using h2.2 r hr⟩

lemma softmaxWith_length (exp : ℚ → ℚ) (v : T1) :
    (softmaxWith exp v).length = v.length := by
  simp [softmaxWith]

lemma softmaxDim1_shape {m : T2} {a b : Nat} (exp : ℚ → ℚ) (h : sh2 m a b = true) :
    sh2 (softmaxDim1 exp m) a b = true := by
  rw [sh2_iff] at h
  rw [sh2_iff]
  refine ⟨by simp [softmaxDim1, h.1], ?_⟩
  intro r hr
  obtain ⟨r0, hr0, rfl⟩ := List.mem_map.mp hr
  rw [softmaxWith_length]
  exact h.2 r0 hr0

lemma softmaxLast3_shape {t : T3} {a b c : Nat} (exp : ℚ → ℚ) (h : sh3 t a b c = true) :
    sh3 (softmaxLast3 exp t) a b c = true := by
  rw [sh3_iff] at h
  rw [sh3_iff]
  refine ⟨by simp [softmaxLast3, h.1], ?_⟩
  intro m hm
  obtain ⟨m0, hm0, rfl⟩ := List.mem_map.mp hm
  exact softmaxDim1_shape _ (h.2 m0 hm0)

lemma maxLast2_shape {m : T2} {a b : Nat} (h : sh2 m a b = true) :
    (maxLast2 m).length = a := by
  rw [sh2_iff] at h
  simp [maxLast2, h.1]

lemma maxLast3_shape {t : T3} {a b c : Nat} (h : sh3 t a b c = true) :
    sh2 (maxLast3 t) a b = true := by
  rw [sh3_iff] at h
  rw [sh2_iff]
  refine ⟨by simp [maxLast3, h.1], ?_⟩
  intro r hr
  obtain ⟨m, hm, rfl⟩ := List.mem_map.mp hr
  have := h.2 m hm
  rw [sh2_iff] at this
  simp [this.1]

lemma add1_length {v w : T1} {n : Nat} (hv : v.length = n) (hw : w.length = n) :
    (add1 v w).length = n := by
  simp [add1, hv, hw]

lemma zipWith_mem {f : α → β → γ} {xs : List α} {ys : List β} {c : γ}
    (h : c ∈ List.zipWith f xs ys) : ∃ a ∈ xs, ∃ b ∈ ys, c = f a b := by
  induction xs generalizing ys with
  | nil => simp at h
  | cons a as ih =>
    cases ys with
    | nil => simp at h
    | cons b bs =>
      rw [List.zipWith_cons_cons] at h
      rcases List.mem_cons.mp h with h1 | h2
      · exact ⟨a, by simp, b, by simp, h1⟩
      · obtain ⟨a2, ha2, b2, hb2, hc⟩ := ih h2
        exact ⟨a2, by simp [ha2], b2, by simp [hb2], hc⟩

lemma add2_shape {x y : T2} {a b : Nat} (hx : sh2 x a b = true) (hy : sh2 y a b = true) :
    sh2 (add2 x y) a b = true := by
  rw [sh2_iff] at hx hy
  rw [sh2_iff]
  refine ⟨by simp [add2, hx.1, hy.1], ?_⟩
  intro r hr
  obtain ⟨r1, hr1, r2, hr2, rfl⟩ := zipWith_mem hr
  exact add1_length (hx.2 r1 hr1) (hy.2 r2 hr2)

end TorchExplain

namespace TorchExplain

lemma scale2_shape {m : T2} {a b : Nat} (c : ℚ) (h : sh2 m a b = true) :
    sh2 (scale2 c m) a b = true := by
  rw [sh2_iff] at h
  rw [sh2_iff]
  refine ⟨by simp [scale2, h.1], ?_⟩
  intro r hr
  obtain ⟨r0, hr0, rfl⟩ := List.mem_map.mp hr
  simp [h.2 r0 hr0]

lemma foldl_add1_length {L : List T1} {acc : T1} {n : Nat} (hacc : acc.length = n)
    (h : ∀ r ∈ L, r.length = n) : (L.foldl add1 acc).length = n := by
  induction L generalizing acc with
  | nil => exact hacc
  | cons r rs ih =>
    exact ih (add1_length hacc (h r (by simp))) fun u hu => h u (by simp [hu])

lemma foldl_add2_shape {L : List T2} {acc : T2} {a b : Nat}
    (hacc : sh2 acc a b = true) (h : ∀ m ∈ L, sh2 m a b = true) :
    sh2 (L.foldl add2 acc) a b = true := by
  induction L generalizing acc with
  | nil => exact hacc
  | cons m ms ih =>
    exact ih (add2_shape hacc (h m (by simp))) fun u hu => h u (by simp [hu])

lemma normDim1_shape {t : T3} {a b c : Nat} (sqrt : ℚ → ℚ)
    (h : sh3 t a b c = true) (hb : 0 < b) :
    sh2 (normDim1 sqrt t) a c = true := by
  rw [sh3_iff] at h
  rw [sh2_iff]
  refine ⟨by simp [normDim1, h.1], ?_⟩
  intro r hr
  obtain ⟨cls, hcls, rfl⟩ := List.mem_map.mp hr
  have h2 := h.2 cls hcls
  rw [sh2_iff] at h2
  rcases cls with _ | ⟨hd, rest⟩
  · simp at h2; omega
  · simp only []
    rw [List.length_map]
    refine foldl_add1_length (by simp [h2.2 hd (by simp)]) ?_
    intro u hu
    obtain ⟨u0, hu0, rfl⟩ := List.mem_map.mp hu
    simp [h2.2 u0 (by simp [hu0])]

lemma mean1of4_shape {t : T4} {a b c d : Nat} (h : sh4 t a b c d = true) (hb : 0 < b) :
    sh3 (mean1of4 t) a c d = true := by
  rw [sh4_iff] at h
  rw [sh3_iff]
  refine ⟨by simp [mean1of4, h.1], ?_⟩
  intro m hm
  obtain ⟨cls, hcls, rfl⟩ := List.mem_map.mp hm
  have h2 := h.2 cls hcls
  rw [sh3_iff] at h2
  rcases cls with _ | ⟨hd, rest⟩
  · simp at h2; omega
  · simp only []
    refine scale2_shape _ (foldl_add2_shape (h2.2 hd (by simp)) ?_)
    intro u hu
    exact h2.2 u (by simp [hu])

lemma permute021_shape {t : T3} {a b c : Nat} (h : sh3 t a b c = true) (hb : 0 < b) :
    sh3 (permute021 t) a c b = true := by
  rw [sh3_iff] at h
  rw [sh3_iff]
  refine ⟨by simp [permute021, h.1], ?_⟩
  intro m hm
  obtain ⟨m0, hm0, rfl⟩ := List.mem_map.mp hm
  exact tr2_shape (h.2 m0 hm0) hb

lemma flatten_len_const {L : List T1} {b : Nat} (h : ∀ r ∈ L, r.length = b) :
    L.flatten.length = L.length * b := by
  induction L with
  | nil => simp
  | cons r rs ih =>
    rw [List.flatten_cons, List.length_append, h r (by simp),
      ih fun u hu => h u (by simp [hu]), List.length_cons, Nat.succ_mul, Nat.add_comm]

lemma flatten2_length {m : T2} {a b : Nat} (h : sh2 m a b = true) :
    (flatten2 m).length = a * b := by
  rw [sh2_iff] at h
  rw [flatten2, flatten_len_const h.2, h.1]

lemma flatten3_length {t : T3} {a b c : Nat} (h : sh3 t a b c = true) :
    (flatten3 t).length = a * (b * c) := by
  rw [sh3_iff] at h
  rw [flatten3, flatten_len_const, List.length_map, h.1]
  intro r hr
  obtain ⟨m, hm, rfl⟩ := List.mem_map.mp hr
  exact flatten2_length (h.2 m hm)

lemma viewT_shape {flat : T1} {C L : Nat} (h : flat.length = C * L) (hC : 0 < C) :
    ∃ v, viewT flat C = some v ∧ sh2 v C L = true := by
  have hdvd : flat.length % C = 0 := by rw [h]; exact Nat.mul_mod_right C L
  have hq : flat.length / C = L := by rw [h]; exact Nat.mul_div_cancel_left L hC
  refine ⟨(List.range C).map fun i =>
      (flat.drop (i * (flat.length / C))).take (flat.length / C), ?_, ?_⟩
  · rw [viewT, if_pos ⟨by omega, hdvd⟩]
  · rw [sh2_iff]
    refine ⟨by simp, ?_⟩
    intro r hr
    obtain ⟨i, hi, rfl⟩ := List.mem_map.mp hr
    rw [List.mem_range] at hi
    rw [List.length_take, List.length_drop, hq, h]
    have h1 : (i + 1) * L ≤ C * L := Nat.mul_le_mul_right L hi
    rw [Nat.succ_mul] at h1
    omega

end TorchExplain

namespace TorchExplain

lemma caw_forward_shapes (exp sqrt : ℚ → ℚ) (l : ConceptAwareness) {C B I O : Nat}
    (hC : 0 < C) (hB : 0 < B) (hI : 0 < I) (hO : 0 < O)
    (hw : sh3 l.weight C O I = true) (hnc : l.n_classes = C)
    (b : T3) (hb : l.bias = some b) (hbs : sh3 b C 1 O = true) (x : TD)
    (hx : (∃ m, x = .t2 m ∧ sh2 m B I = true) ∨ (∃ t, x = .t3 t ∧ sh3 t C B I = true)) :
    ∃ out, (ConceptAwareness.forward exp sqrt l x).2 = .ok out ∧
      ((l.top = false → ∃ o3, out = .t3 o3 ∧ sh3 o3 C B O = true) ∧
       (l.top = true → ∃ o2, out = .t2 o2 ∧ sh2 o2 (B * O) C = true)) := by
  have hxp : ∃ cIn x3, promoteTD x = .t3 x3 ∧ sh3 x3 cIn B I = true ∧ (cIn = 1 ∨ cIn = C) := by
    rcases hx with ⟨m, rfl, hm⟩ | ⟨t, rfl, ht⟩
    · refine ⟨1, [m], rfl, ?_, Or.inl rfl⟩
      rw [sh3_iff]
      exact ⟨rfl, by simpa using hm⟩
    · exact ⟨C, t, rfl, ht, Or.inr rfl⟩
  obtain ⟨cIn, x3, hxp3, hx3, hcIn⟩ := hxp
  simp only [ConceptAwareness.forward]
  rw [hxp3]
  simp only []
  have hperm : sh3 (permute021 l.weight) C I O = true := permute021_shape hw hO
  by_cases hsh : l.shrink = true
  · rw [if_pos hsh]
    have hg : sh2 (l.gammaOf sqrt) C I = true := normDim1_shape sqrt hw hO
    have ha : sh2 (l.alphaOf exp sqrt) C I = true := softmaxDim1_shape _ hg
    obtain ⟨bta, hbta, hbtas⟩ :=
      bop2_shape_bc ha (unsq1of1_shape (maxLast2_shape ha))
    have hbeta : l.betaOf exp sqrt = some bta := hbta
    have hxg : ∃ xg, bop3 (· * ·) x3 (unsq1of2 bta) = some xg ∧ sh3 xg C B I = true := by
      rcases hcIn with rfl | rfl
      · exact bop3_shape_left_one hx3 (unsq1of2_shape hbtas)
      · exact bop3_shape_mid_one hx3 (unsq1of2_shape hbtas)
    obtain ⟨xg, hxg1, hxg2⟩ := hxg
    obtain ⟨pm, hpm, hpms⟩ := matmul33_shape_same hxg2 hperm hI
    obtain ⟨o3, ho31, ho3s⟩ := bop3_shape_mid_one (f := (· + ·)) hpms hbs
    simp only [hbeta, hxg1, ConceptAwareness.project, hpm, hb, ho31,
      ConceptAwareness.finishTop, hnc]
    by_cases htp : l.top = true
    · rw [if_pos htp]
      obtain ⟨v, hv, hvs⟩ := viewT_shape (flatten3_length ho3s) hC
      rw [hv]
      exact ⟨.t2 (tr2 v), rfl, fun hf => by simp [hf] at htp,
        fun _ => ⟨tr2 v, rfl, tr2_shape hvs hC⟩⟩
    · rw [if_neg htp]
      exact ⟨.t3 o3, rfl, fun _ => ⟨o3, rfl, ho3s⟩, fun ht => absurd ht htp⟩
  · rw [if_neg hsh]
    have hpm0 : ∃ mm, matmul33 x3 (permute021 l.weight) = some mm ∧ sh3 mm C B O = true := by
      rcases hcIn with rfl | rfl
      · exact matmul33_shape_left_one hx3 hperm hI
      · exact matmul33_shape_same hx3 hperm hI
    obtain ⟨pm, hpm, hpms⟩ := hpm0
    obtain ⟨o3, ho31, ho3s⟩ := bop3_shape_mid_one (f := (· + ·)) hpms hbs
    simp only [ConceptAwareness.project, hpm, hb, ho31,
      ConceptAwareness.finishTop, hnc]
    by_cases htp : l.top = true
    · rw [if_pos htp]
      obtain ⟨v, hv, hvs⟩ := viewT_shape (flatten3_length ho3s) hC
      rw [hv]
      exact ⟨.t2 (tr2 v), rfl, fun hf => by simp [hf] at htp,
        fun _ => ⟨tr2 v, rfl, tr2_shape hvs hC⟩⟩
    · rw [if_neg htp]
      exact ⟨.t3 o3, rfl, fun _ => ⟨o3, rfl, ho3s⟩, fun ht => absurd ht htp⟩

end TorchExplain

namespace TorchExplain

/-- C2: a `ConceptAwareness(in, out, n_classes)` layer applied to a
`(batch, in)` or `(n_classes, batch, in)` tensor succeeds and returns a
`(n_classes, batch, out)` tensor; when `top=True` and `out=1` it returns a
`(batch, n_classes)` tensor. -/
theorem c2_caw_forward_output_shapes (exp sqrt : ℚ → ℚ) (inF outF C : Nat)
    (aw : Bool) (nh : Option Nat) (top : Bool) (wv bv : Nat → Nat → Nat → ℚ)
    (B : Nat) (x : TD) (hC : 0 < C) (hB : 0 < B) (hI : 0 < inF) (hO : 0 < outF)
    (hx : (∃ m, x = .t2 m ∧ sh2 m B inF = true) ∨
          (∃ t, x = .t3 t ∧ sh3 t C B inF = true)) :
    ∃ out, (ConceptAwareness.forward exp sqrt
        (mkConceptAwareness inF outF C aw nh top true wv bv) x).2 = .ok out ∧
      (top = false → ∃ o3, out = .t3 o3 ∧ sh3 o3 C B outF = true) ∧
      (top = true → outF = 1 → ∃ o2, out = .t2 o2 ∧ sh2 o2 B C = true) := by
  obtain ⟨out, hout, h1, h2⟩ := caw_forward_shapes exp sqrt
    (mkConceptAwareness inF outF C aw nh top true wv bv) hC hB hI hO
    (by simp only [mkConceptAwareness]; exact sh3_tof3 C outF inF wv) rfl
    (tof3 C 1 outF bv) (by simp [mkConceptAwareness]) (sh3_tof3 C 1 outF bv) x hx
  refine ⟨out, hout, fun hf => h1 hf, fun ht hO1 => ?_⟩
  obtain ⟨o2, ho2, ho2s⟩ := h2 ht
  subst hO1
  exact ⟨o2, ho2, by simpa using ho2s⟩

/-- Witness for C2 at a concrete `top=True, out=1` layer on a 2-D input. -/
theorem c2_caw_forward_output_shapes_witness :
    ∃ out, (ConceptAwareness.forward (fun q => q) (fun q => q)
        (mkConceptAwareness 2 1 2 false none true true (fun _ _ _ => 1) (fun _ _ _ => 0))
        (.t2 (tof2 3 2 fun _ _ => 1))).2 = .ok out ∧
      (true = false → ∃ o3, out = .t3 o3 ∧ sh3 o3 2 3 1 = true) ∧
      (true = true → 1 = 1 → ∃ o2, out = .t2 o2 ∧ sh2 o2 3 2 = true) :=
  c2_caw_forward_output_shapes (fun q => q) (fun q => q) 2 1 2 false none true
    (fun _ _ _ => 1) (fun _ _ _ => 0) 3 (.t2 (tof2 3 2 fun _ _ => 1))
    (by decide) (by decide) (by decide) (by decide)
    (Or.inl ⟨tof2 3 2 fun _ _ => 1, rfl, by decide⟩)

/-- C10: with `top=True` and `out_features > 1`, the final reshape flattens the
batch and output-feature axes together: the output is a
`(batch * out_features, n_classes)` tensor, for 2-D and 3-D inputs alike. -/
theorem c10_top_reshape_flattens_batch_and_features (exp sqrt : ℚ → ℚ)
    (inF outF C : Nat) (aw : Bool) (nh : Option Nat) (wv bv : Nat → Nat → Nat → ℚ)
    (B : Nat) (x : TD) (hC : 0 < C) (hB : 0 < B) (hI : 0 < inF) (hO : 1 < outF)
    (hx : (∃ m, x = .t2 m ∧ sh2 m B inF = true) ∨
          (∃ t, x = .t3 t ∧ sh3 t C B inF = true)) :
    ∃ o2, (ConceptAwareness.forward exp sqrt
        (mkConceptAwareness inF outF C aw nh true true wv bv) x).2 = .ok (.t2 o2) ∧
      sh2 o2 (B * outF) C = true := by
  obtain ⟨out, hout, _, h2⟩ := caw_forward_shapes exp sqrt
    (mkConceptAwareness inF outF C aw nh true true wv bv) hC hB hI (by omega)
    (by simp only [mkConceptAwareness]; exact sh3_tof3 C outF inF wv) rfl
    (tof3 C 1 outF bv) (by simp [mkConceptAwareness]) (sh3_tof3 C 1 outF bv) x hx
  obtain ⟨o2, rfl, ho2s⟩ := h2 rfl
  exact ⟨o2, hout, ho2s⟩

/-- Witness for C10 at a concrete layer with `out_features = 2`. -/
theorem c10_top_reshape_flattens_batch_and_features_witness :
    ∃ o2, (ConceptAwareness.forward (fun q => q) (fun q => q)
        (mkConceptAwareness 2 2 2 false none true true (fun _ _ _ => 1) (fun _ _ _ => 0))
        (.t2 (tof2 3 2 fun _ _ => 1))).2 = .ok (.t2 o2) ∧
      sh2 o2 6 2 = true :=
  c10_top_reshape_flattens_batch_and_features (fun q => q) (fun q => q) 2 2 2
    false none (fun _ _ _ => 1) (fun _ _ _ => 0) 3 (.t2 (tof2 3 2 fun _ _ => 1))
    (by decide) (by decide) (by decide) (by decide)
    (Or.inl ⟨tof2 3 2 fun _ _ => 1, rfl, by decide⟩)

end TorchExplain

namespace TorchExplain

lemma le_foldl_max (b : ℚ) (xs : List ℚ) : b ≤ xs.foldl max b := by
  induction xs generalizing b with
  | nil => exact le_refl b
  | cons a as ih => exact le_trans (le_max_left b a) (ih (max b a))

lemma mem_le_foldl_max {x : ℚ} {xs : List ℚ} (h : x ∈ xs) (b : ℚ) :
    x ≤ xs.foldl max b := by
  induction xs generalizing b with
  | nil => simp at h
  | cons a as ih =>
    rcases List.mem_cons.mp h with rfl | h2
    · exact le_trans (le_max_right b x) (le_foldl_max (max b x) as)
    · exact ih h2 (max b a)

lemma le_maxList {x : ℚ} {v : T1} (h : x ∈ v) : x ≤ maxList v := by
  rcases v with _ | ⟨a, as⟩
  · simp at h
  · rcases List.mem_cons.mp h with rfl | h2
    · exact le_foldl_max x as
    · exact mem_le_foldl_max h2 a

lemma foldl_max_mem (b : ℚ) (xs : List ℚ) : xs.foldl max b = b ∨ xs.foldl max b ∈ xs := by
  induction xs generalizing b with
  | nil => exact Or.inl rfl
  | cons a as ih =>
    rcases ih (max b a) with h | h
    · rcases max_choice b a with hm | hm
      · exact Or.inl (by rw [List.foldl_cons, h, hm])
      · exact Or.inr (by rw [List.foldl_cons, h, hm]; simp)
    · exact Or.inr (by simp [h])

lemma maxList_mem {v : T1} (h : v ≠ []) : maxList v ∈ v := by
  rcases v with _ | ⟨a, as⟩
  · exact absurd rfl h
  · rcases foldl_max_mem a as with h2 | h2
    · rw [maxList, h2]; simp
    · rw [maxList]; simp [h2]

lemma maxList_pos {v : T1} (hne : v ≠ []) (h : ∀ x ∈ v, 0 < x) : 0 < maxList v :=
  h _ (maxList_mem hne)

lemma foldl_max_div {m : ℚ} (hm : 0 < m) (xs : List ℚ) (b : ℚ) :
    (xs.map (· / m)).foldl max (b / m) = (xs.foldl max b) / m := by
  induction xs generalizing b with
  | nil => rfl
  | cons a as ih =>
    rw [List.map_cons, List.foldl_cons, List.foldl_cons, ← ih (max b a),
      max_div_div_right (le_of_lt hm)]

lemma maxList_map_div {v : T1} {m : ℚ} (hm : 0 < m) (hv : v ≠ []) :
    maxList (v.map (· / m)) = maxList v / m := by
  rcases v with _ | ⟨a, as⟩
  · exact absurd rfl hv
  · rw [List.map_cons, maxList, maxList, foldl_max_div hm]

lemma maxRescale {v : T1} (hne : v ≠ []) (hpos : ∀ x ∈ v, 0 < x) :
    maxList (v.map fun x => x / maxList v) = 1 ∧
    ∀ y ∈ v.map (fun x => x / maxList v), 0 < y ∧ y ≤ 1 := by
  have hm : 0 < maxList v := maxList_pos hne hpos
  constructor
  · rw [show (fun x => x / maxList v) = (· / maxList v) from rfl,
      maxList_map_div hm hne, div_self (ne_of_gt hm)]
  · intro y hy
    obtain ⟨x, hx, rfl⟩ := List.mem_map.mp hy
    exact ⟨div_pos (hpos x hx) hm, (div_le_one hm).mpr (le_maxList hx)⟩

lemma softmaxWith_pos {exp : ℚ → ℚ} (hexp : ∀ q, 0 < exp q) {v : T1} (hv : v ≠ []) :
    ∀ y ∈ softmaxWith exp v, 0 < y := by
  intro y hy
  obtain ⟨x, _, rfl⟩ := List.mem_map.mp hy
  refine div_pos (hexp x) (List.sum_pos _ ?_ (by simpa using hv))
  intro q hq
  obtain ⟨x2, _, rfl⟩ := List.mem_map.mp hq
  exact hexp x2

lemma softmaxWith_ne_nil (exp : ℚ → ℚ) {v : T1} (hv : v ≠ []) :
    softmaxWith exp v ≠ [] := by
  simpa [softmaxWith] using hv

end TorchExplain

namespace TorchExplain


lemma zipWith_map_same (f : β → γ → δ) (u : α → β) (v : α → γ) (l : List α) :
    List.zipWith f (l.map u) (l.map v) = l.map fun a => f (u a) (v a) := by
  induction l with
  | nil => rfl
  | cons a as ih => simp [ih]

lemma tof1_map (g : ℚ → ℚ) (n : Nat) (f : Nat → ℚ) :
    (tof1 n f).map g = tof1 n fun i => g (f i) := by
  simp [tof1, List.map_map]

lemma add1_tof {I : Nat} (u v : Nat → ℚ) :
    add1 (tof1 I u) (tof1 I v) = tof1 I fun i => u i + v i := by
  rw [add1, tof1, tof1, zipWith_map_same]
  rfl

lemma foldl_add1_tof (idxs : List Nat) (I : Nat) (S : Nat → Nat → ℚ) (H : Nat → ℚ) :
    ((idxs.map fun o => tof1 I (S o)).foldl add1 (tof1 I H)) =
      tof1 I fun i => H i + (idxs.map fun o => S o i).sum := by
  induction idxs generalizing H with
  | nil => simp
  | cons o os ih =>
    rw [List.map_cons, List.foldl_cons, add1_tof, ih]
    congr 1
    funext i
    simp [add_assoc]

lemma sumR_succ_head (n : Nat) (F : Nat → ℚ) :
    sumR (n + 1) F = F 0 + sumR n fun i => F (i + 1) := by
  rw [sumR, sumR, List.range_succ_eq_map, List.map_cons, List.sum_cons, List.map_map]
  rfl

lemma tof2_succ_rows (O I : Nat) (g : Nat → Nat → ℚ) :
    tof2 (O + 1) I g = tof1 I (g 0) :: (List.range O).map fun o => tof1 I (g (o + 1)) := by
  rw [tof2, List.range_succ_eq_map, List.map_cons, List.map_map]
  rfl

lemma normDim1_tof (sqrt : ℚ → ℚ) (C O I : Nat) (w : Nat → Nat → Nat → ℚ) (hO : 0 < O) :
    normDim1 sqrt (tof3 C O I w) =
      tof2 C I fun c i => sqrt (sumR O fun o => w c o i * w c o i) := by
  obtain ⟨O2, rfl⟩ : ∃ O2, O = O2 + 1 := ⟨O - 1, by omega⟩
  rw [normDim1, tof3, List.map_map, tof2]
  refine List.map_congr_left ?_
  intro c _
  simp only [Function.comp]
  rw [tof2_succ_rows]
  simp only [List.map_map]
  rw [show ((fun r => List.map (fun x => x * x) r) ∘ fun o => tof1 I (w c (o + 1))) =
      fun o => tof1 I fun i => w c (o + 1) i * w c (o + 1) i from by
    funext o
    simp only [Function.comp]
    rw [tof1_map]]
  rw [tof1_map, foldl_add1_tof, tof1_map]
  congr 1
  funext i
  rw [sumR_succ_head, sumR]

end TorchExplain

namespace TorchExplain

/-- Helper: line 57 computes `beta` by dividing every row of `alpha` by that
row's maximum. -/
lemma betaOf_eq (exp sqrt : ℚ → ℚ) (l : ConceptAwareness) :
    l.betaOf exp sqrt =
      some ((l.alphaOf exp sqrt).map fun r => r.map (· / maxList r)) := by
  rw [ConceptAwareness.betaOf]
  have hdiv : unsq1of1 (maxLast2 (l.alphaOf exp sqrt)) =
      (l.alphaOf exp sqrt).map fun r => [maxList r] := by
    rw [unsq1of1, maxLast2, List.map_map]
    rfl
  rw [hdiv, bop2]
  refine bcZip_map_eq ?_
  intro r _
  rw [bop1_right_one]



/-- C4 counterexample: `weight.norm(dim=1)` reduces the output-feature axis, so
`gamma` is indexed per class and per INPUT feature; it differs from the
claimed per-class, per-output-feature weight-vector norms already in shape. -/
theorem c4_gamma_per_output_refuted :
    ConceptAwareness.gammaOf (fun q => q) cawShrinkC4 ≠
      gammaSpecPerOutput (fun q => q) cawShrinkC4 := by
  with_unfolding_all decide

/-- C4 amended: in shrink mode `gamma` holds the per-class, per-input-feature
norms of the weight columns taken across output features; `alpha` is its
softmax across input features and `beta` is `alpha` rescaled by its per-class
maximum, so for every class the maximum entry of `beta` across input features
equals 1 and all entries lie in `(0, 1]`. -/
theorem c4_shrink_gating_amended (exp sqrt : ℚ → ℚ) (inF outF C : Nat)
    (aw : Bool) (nh : Nat) (top biasFlag : Bool) (wv bv : Nat → Nat → Nat → ℚ)
    (hC : 0 < C) (hI : 0 < inF) (hO : 0 < outF) (hexp : ∀ q, 0 < exp q) :
    (mkConceptAwareness inF outF C aw (some nh) top biasFlag wv bv).gammaOf sqrt =
      tof2 C inF (fun c i => sqrt (sumR outF fun o => wv c o i * wv c o i)) ∧
    ∃ bta, (mkConceptAwareness inF outF C aw (some nh) top biasFlag wv bv).betaOf
        exp sqrt = some bta ∧ sh2 bta C inF = true ∧
      ∀ r ∈ bta, maxList r = 1 ∧ ∀ y ∈ r, 0 < y ∧ y ≤ 1 := by
  have hweight : (mkConceptAwareness inF outF C aw (some nh) top biasFlag wv bv).weight =
      tof3 C outF inF wv := by
    simp [mkConceptAwareness]
  have hgamma : (mkConceptAwareness inF outF C aw (some nh) top biasFlag wv bv).gammaOf
      sqrt = tof2 C inF fun c i => sqrt (sumR outF fun o => wv c o i * wv c o i) := by
    rw [ConceptAwareness.gammaOf, hweight, normDim1_tof sqrt C outF inF wv hO]
  refine ⟨hgamma, ?_⟩
  have halpha : sh2 ((mkConceptAwareness inF outF C aw (some nh) top biasFlag
      wv bv).alphaOf exp sqrt) C inF = true :=
    softmaxDim1_shape exp (by rw [hgamma]; exact sh2_tof2 C inF _)
  rw [betaOf_eq]
  refine ⟨_, rfl, ?_, ?_⟩
  · rw [sh2_iff] at halpha ⊢
    refine ⟨by simp [halpha.1], ?_⟩
    intro r hr
    obtain ⟨r0, hr0, rfl⟩ := List.mem_map.mp hr
    simp [halpha.2 r0 hr0]
  · intro r hr
    obtain ⟨r0, hr0, rfl⟩ := List.mem_map.mp hr
    have hsm : (mkConceptAwareness inF outF C aw (some nh) top biasFlag wv bv).alphaOf
        exp sqrt = ((mkConceptAwareness inF outF C aw (some nh) top biasFlag
          wv bv).gammaOf sqrt).map (softmaxWith exp) := rfl
    rw [hsm] at hr0
    obtain ⟨g0, hg0, rfl⟩ := List.mem_map.mp hr0
    have hg0ne : g0 ≠ [] := by
      rw [hgamma] at hg0
      obtain ⟨c, _, rfl⟩ := List.mem_map.mp hg0
      exact List.length_pos.mp (by simp [tof1, hI])
    have hpos := softmaxWith_pos hexp hg0ne
    have hne := softmaxWith_ne_nil exp hg0ne
    exact ⟨(maxRescale hne hpos).1, (maxRescale hne hpos).2⟩

/-- Witness for the amended C4 at a concrete shrink-mode layer. -/
theorem c4_shrink_gating_amended_witness :
    ∃ bta, (mkConceptAwareness 2 2 1 false (some 1) false true (fun _ _ _ => 1)
        (fun _ _ _ => 0)).betaOf (fun _ => 1) (fun q => q) = some bta ∧
      sh2 bta 1 2 = true ∧ ∀ r ∈ bta, maxList r = 1 ∧ ∀ y ∈ r, 0 < y ∧ y ≤ 1 :=
  (c4_shrink_gating_amended (fun _ => 1) (fun q => q) 2 2 1 false 1 false true
    (fun _ _ _ => 1) (fun _ _ _ => 0) (by decide) (by decide) (by decide)
    fun _ => one_pos).2

end TorchExplain

namespace TorchExplain

/-- Helper: line 139's rescaling divides every row of the softmax scores by
that row's maximum over the key axis. -/
lemma rescale3_eq (t : T3) :
    bop3 (· / ·) t (unsqLast2 (maxLast3 t)) =
      some (t.map fun m => m.map fun r => r.map (· / maxList r)) := by
  have hdiv : unsqLast2 (maxLast3 t) =
      t.map fun m => (m.map maxList).map fun q => [q] := by
    rw [unsqLast2, maxLast3, List.map_map]
    rfl
  rw [hdiv, bop3]
  refine bcZip_map_eq ?_
  intro m _
  have h2 : (m.map maxList).map (fun q => ([q] : T1)) = m.map fun r => [maxList r] := by
    rw [List.map_map]
    rfl
  rw [h2, bop2]
  refine bcZip_map_eq ?_
  intro r _
  rw [bop1_right_one]

/-- C5: in `Attention.forward` (with the standard rank-3 input and rank-2
label tensor), the stored softmax attention scores are strictly positive, so
dividing them by their per-class maximum over the batch/key axis (line 139)
yields scores whose maximum over that axis equals 1, all lying in `(0, 1]`. -/
theorem c5_attention_rescaled_scores_max_one (exp : ℚ → ℚ) (inF outF C : Nat)
    (kv : Nat → Nat → Nat → Nat → ℚ) (qv vv : Nat → Nat → Nat → ℚ)
    (wv : Nat → Nat → Nat → Nat → ℚ) (bv : Nat → Nat → Nat → ℚ)
    (B : Nat) (xx : T3) (ym : T2) (hC : 0 < C) (hB : 0 < B) (hI : 0 < inF)
    (hx : sh3 xx C B inF = true) (hy : sh2 ym B C = true) (hexp : ∀ q, 0 < exp q) :
    ∃ asm, (Attention.forward exp (mkAttention inF outF C false kv qv vv wv bv)
        (.t3 xx) (.t2 ym)).1.attn_scores_softmax = some asm ∧
      sh3 asm C 1 inF = true ∧
      ∃ resc, bop3 (· / ·) asm (unsqLast2 (maxLast3 asm)) = some resc ∧
        ∀ m ∈ resc, ∀ r ∈ m, maxList r = 1 ∧ ∀ y ∈ r, 0 < y ∧ y ≤ 1 := by
  obtain ⟨keys, hkeys, hkeyss⟩ := matmul44_shape_mid_one
    (unsqLast3_shape hx) (sh4_tof4 C 1 1 5 kv) (by omega)
  obtain ⟨querys, hquerys, hqueryss⟩ := matmul33_shape_same
    (unsqLast2_shape (tr2_shape hy hB)) (sh3_tof3 C 1 5 qv) (by omega)
  obtain ⟨values, hvalues, hvaluess⟩ := bop3_shape_inner_one (f := (· * ·))
    hx (sh3_tof3 C 1 1 vv)
  obtain ⟨scores, hscores, hscoress⟩ := matmul44_shape_same
    hkeyss (unsqLast3_shape hqueryss) (by omega)
  have havg : sh3 (permute021 (mean1of4 scores)) C 1 inF = true :=
    permute021_shape (mean1of4_shape hscoress hB) hI
  have hasm : sh3 (softmaxLast3 exp (permute021 (mean1of4 scores))) C 1 inF = true :=
    softmaxLast3_shape exp havg
  have hrescs : sh3 ((softmaxLast3 exp (permute021 (mean1of4 scores))).map
      fun m => m.map fun r => r.map (· / maxList r)) C 1 inF = true := by
    rw [sh3_iff] at hasm ⊢
    refine ⟨by simp [hasm.1], ?_⟩
    intro m hm
    obtain ⟨m0, hm0, rfl⟩ := List.mem_map.mp hm
    have h2 := hasm.2 m0 hm0
    rw [sh2_iff] at h2 ⊢
    refine ⟨by simp [h2.1], ?_⟩
    intro r hr
    obtain ⟨r0, hr0, rfl⟩ := List.mem_map.mp hr
    simp [h2.2 r0 hr0]
  obtain ⟨weighted, hweighted, _⟩ := bop3_shape_mid_one (f := (· * ·))
    hvaluess hrescs
  simp only [Attention.forward, mkAttention, if_neg (by simp : ¬(false = true)),
    hkeys, hquerys, hvalues, hscores, rescale3_eq, hweighted]
  refine ⟨_, rfl, hasm, _, rfl, ?_⟩
  intro m hm
  obtain ⟨m0, hm0, rfl⟩ := List.mem_map.mp hm
  intro r hr
  obtain ⟨r0, hr0, rfl⟩ := List.mem_map.mp hr
  rw [softmaxLast3] at hm0
  obtain ⟨m1, hm1, rfl⟩ := List.mem_map.mp hm0
  obtain ⟨r1, hr1, rfl⟩ := List.mem_map.mp hr0
  have hr1ne : r1 ≠ [] := by
    rw [sh3_iff] at havg
    have h2 := havg.2 m1 hm1
    rw [sh2_iff] at h2
    exact List.length_pos.mp (by rw [h2.2 r1 hr1]; exact hI)
  have hpos := softmaxWith_pos hexp hr1ne
  have hne := softmaxWith_ne_nil exp hr1ne
  exact ⟨(maxRescale hne hpos).1, (maxRescale hne hpos).2⟩

/-- Witness for C5 at a concrete attention layer, input and labels. -/
theorem c5_attention_rescaled_scores_max_one_witness :
    ∃ asm, (Attention.forward (fun _ => 1)
        (mkAttention 2 1 2 false (fun _ _ _ _ => 1) (fun _ _ _ => 1) (fun _ _ _ => 1)
          (fun _ _ _ _ => 1) (fun _ _ _ => 0))
        (.t3 (tof3 2 3 2 fun _ _ _ => 1)) (.t2 (tof2 3 2 fun _ _ => 1))).1.attn_scores_softmax
        = some asm ∧
      sh3 asm 2 1 2 = true ∧
      ∃ resc, bop3 (· / ·) asm (unsqLast2 (maxLast3 asm)) = some resc ∧
        ∀ m ∈ resc, ∀ r ∈ m, maxList r = 1 ∧ ∀ y ∈ r, 0 < y ∧ y ≤ 1 :=
  c5_attention_rescaled_scores_max_one (fun _ => 1) 2 1 2 (fun _ _ _ _ => 1)
    (fun _ _ _ => 1) (fun _ _ _ => 1) (fun _ _ _ _ => 1) (fun _ _ _ => 0) 3
    (tof3 2 3 2 fun _ _ _ => 1) (tof2 3 2 fun _ _ => 1)
    (by decide) (by decide) (by decide) (by decide) (by decide) fun _ => one_pos

end TorchExplain
